import Mathlib

/-! # Binlog event decoding (`lostz/mirror`, package `mysql`)

A shallow embedding of the event-decoding pipeline of `mysql/event.go`,
`mysql/row_event.go` and `mysql/parser.go`, and theorems about it.

Conventions of the embedding

* A Go `byte` is a `Fin 256`; a `[]byte` and a `string` are lists of bytes.
* A `uint16`/`uint32`/`uint64` value is the natural number it denotes.
* A Go function that may stop with a run-time panic (index or slice bound out
  of range, nil dereference) returns `Run α`: `Run.fault` is the panic,
  `Run.ok a` is normal termination with result `a`.
* A method with a pointer receiver that returns `error` is a function from the
  receiver to the updated receiver and an optional error (`none` is `nil`).
-/

namespace mysql

/-! ## Bytes, panics and the `encoding/binary` readers -/

/-- A Go `byte`. -/
abbrev Byte := Fin 256

/-- A Go `[]byte` (also the bytes of a Go `string`). -/
abbrev Bytes := List Byte

/-- The run-time panics the decoders can raise. -/
inductive Panic where
  | indexOutOfRange
  | sliceBoundsOutOfRange
  | nilDereference
deriving DecidableEq, Repr

/-- Outcome of a Go computation: a run-time panic or a result. -/
inductive Run (α : Type) where
  | fault (p : Panic) : Run α
  | ok (a : α) : Run α
deriving DecidableEq, Repr

/-- Sequencing: a panic aborts the rest of the computation. -/
def Run.bind {α β : Type} : Run α → (α → Run β) → Run β
  | .fault p, _ => .fault p
  | .ok a, f => f a

instance : Monad Run where
  pure := Run.ok
  bind := Run.bind

/-- Index expression `s[i]` for an `int` index. -/
def index {α : Type} (s : List α) (i : Int) : Run α :=
  if 0 ≤ i then
    match s[i.toNat]? with
    | some a => .ok a
    | none => .fault .indexOutOfRange
  else .fault .indexOutOfRange

/-- Slice expression `s[lo:]`. -/
def sliceFrom (s : Bytes) (lo : Int) : Run Bytes :=
  if 0 ≤ lo ∧ lo ≤ s.length then .ok (s.drop lo.toNat) else .fault .sliceBoundsOutOfRange

/-- Slice expression `s[lo:hi]`, for a slice whose capacity is its length. -/
def slice (s : Bytes) (lo hi : Int) : Run Bytes :=
  if 0 ≤ lo ∧ lo ≤ hi ∧ hi ≤ s.length then .ok ((s.drop lo.toNat).take (hi - lo).toNat)
  else .fault .sliceBoundsOutOfRange

/-- Little-endian value of a byte sequence (least significant byte first). -/
def leValue : Bytes → Nat
  | [] => 0
  | b :: bs => b.val + 256 * leValue bs

/-- Function `binary.LittleEndian.Uint16`: reads `b[0..1]`, panics on a shorter slice. -/
def Uint16 : Bytes → Run Nat
  | b0 :: b1 :: _ => .ok (b0.val + b1.val * 2 ^ 8)
  | _ => .fault .indexOutOfRange

/-- Function `binary.LittleEndian.Uint32`: reads `b[0..3]`, panics on a shorter slice. -/
def Uint32 : Bytes → Run Nat
  | b0 :: b1 :: b2 :: b3 :: _ =>
      .ok (b0.val + b1.val * 2 ^ 8 + b2.val * 2 ^ 16 + b3.val * 2 ^ 24)
  | _ => .fault .indexOutOfRange

/-- Function `binary.LittleEndian.Uint64`: reads `b[0..7]`, panics on a shorter slice. -/
def Uint64 : Bytes → Run Nat
  | b0 :: b1 :: b2 :: b3 :: b4 :: b5 :: b6 :: b7 :: _ =>
      .ok (b0.val + b1.val * 2 ^ 8 + b2.val * 2 ^ 16 + b3.val * 2 ^ 24
        + b4.val * 2 ^ 32 + b5.val * 2 ^ 40 + b6.val * 2 ^ 48 + b7.val * 2 ^ 56)
  | _ => .fault .indexOutOfRange

/-- The bytes `data[lo .. lo+n)` as far as they exist (specification-side window). -/
def window (data : Bytes) (lo n : Nat) : Bytes := (data.drop lo).take n

/-! ## Errors -/

/-- The `error` values built by `errors.New(fmt.Sprintf(...))`, with their arguments. -/
inductive Err where
  /-- Message `header size too short %d, must 19`. -/
  | headerTooShort (len : Nat)
  /-- Message `invalid event size %d, must >= 19`. -/
  | invalidEventSize (size : Nat)
  /-- Message `invalid event header length %d, must 19`. -/
  | invalidHeaderLength (len : Nat)
  /-- Value `io.EOF`. -/
  | EOF
  /-- Value `io.ErrUnexpectedEOF`. -/
  | ErrUnexpectedEOF
  /-- Message `invalid event header, event size is %d, too small`. -/
  | eventSizeTooSmall (size : Nat)
  /-- Message `get event body err %v, need %d - %d, but got %d`. -/
  | getEventBody (size got : Nat)
  /-- Message `invalid data size %d in event %s, less event length %d`. -/
  | invalidDataSize (len eventLen : Nat)
  /-- Message `%s is not a valid binlog file, head 4 bytes must fe'bin' `. -/
  | notValidBinlogFile
  /-- The error of a failed `os.Open`. -/
  | openFailed
deriving DecidableEq, Repr

/-! ## `event.go`: the event header -/

/-- Constant `EventHeaderSize`. -/
def EventHeaderSize : Nat := 19

/-- Type `EventType`: the one-byte event-type code. -/
abbrev EventType := Byte

/-- Struct `EventHeader`. -/
structure EventHeader where
  Timestamp : Nat := 0
  EventType : EventType := 0
  ServerID : Nat := 0
  EventSize : Nat := 0
  LogPos : Nat := 0
  Flags : Nat := 0
deriving DecidableEq, Repr

/-- Method `(*EventHeader).Decode`. -/
def EventHeader.Decode (self : EventHeader) (data : Bytes) : Run (EventHeader × Option Err) :=
  if data.length < EventHeaderSize then
    .ok (self, some (.headerTooShort data.length))
  else do
    let pos : Int := 0
    let self := { self with Timestamp := ← Uint32 (← sliceFrom data pos) }
    let pos := pos + 4
    let self := { self with EventType := ← index data pos }
    let pos := pos + 1
    let self := { self with ServerID := ← Uint32 (← sliceFrom data pos) }
    let pos := pos + 4
    let self := { self with EventSize := ← Uint32 (← sliceFrom data pos) }
    let pos := pos + 4
    let self := { self with LogPos := ← Uint32 (← sliceFrom data pos) }
    let pos := pos + 4
    let self := { self with Flags := ← Uint16 (← sliceFrom data pos) }
    if self.EventSize < EventHeaderSize then
      .ok (self, some (.invalidEventSize self.EventSize))
    else
      .ok (self, none)

/-! ## `event.go`: the server-version product

The helpers below model the Go standard-library functions that
`splitServerVersion` calls: `strings.Split`, `strconv.Atoi`, the `range` loop
over a string (UTF-8 decoding) and `unicode.IsNumber`.  Go `int` is taken to be
64 bits wide. -/

/-- Go `int` wrap-around: the value of a 64-bit two's-complement result. -/
def wrapInt (v : Int) : Int := (v + 2 ^ 63) % 2 ^ 64 - 2 ^ 63

/-- Go `a * b` on `int`. -/
def intMul (a b : Int) : Int := wrapInt (a * b)

/-- Go `a + b` on `int`. -/
def intAdd (a b : Int) : Int := wrapInt (a + b)

/-- Function `strings.Split(s, sep)` for a one-byte separator: the substrings between
the separators (one more than the number of separators). -/
def stringsSplit (sep : Byte) : Bytes → List Bytes
  | [] => [[]]
  | c :: cs =>
    if c = sep then [] :: stringsSplit sep cs
    else
      match stringsSplit sep cs with
      | [] => [[c]]
      | p :: ps => (c :: p) :: ps

/-- Result of the digit scan of `strconv.ParseUint(s, 10, 64)`. -/
inductive UintScan where
  | syntaxError
  | rangeError
  | value (n : Nat)
deriving DecidableEq, Repr

/-- The digit loop of `strconv.ParseUint(s, 10, 64)`, with `n` the value so far:
a byte that is not an ASCII digit is a syntax error, a value above `2^64 - 1`
a range error (reported as soon as it is reached). -/
def parseUintLoop : Bytes → Nat → UintScan
  | [], n => .value n
  | c :: cs, n =>
    if 48 ≤ c.val ∧ c.val ≤ 57 then
      if (2 ^ 64 - 1) / 10 + 1 ≤ n then .rangeError
      else if 2 ^ 64 - 1 < n * 10 + (c.val - 48) then .rangeError
      else parseUintLoop cs (n * 10 + (c.val - 48))
    else .syntaxError

/-- The unsigned part of `strconv.Atoi`: the empty string is a syntax error. -/
def parseUint (s : Bytes) : UintScan :=
  match s with
  | [] => .syntaxError
  | _ => parseUintLoop s 0

/-- Function `strconv.Atoi` on a 64-bit platform: the value it returns and whether it
returns a non-nil error.  A syntax error gives value 0, a range error gives the
nearest representable value. -/
def Atoi (s : Bytes) : Int × Bool :=
  match s with
  | [] => (0, true)
  | c :: cs =>
    let neg : Bool := decide (c.val = 45)
    let digits : Bytes := if c.val = 43 ∨ c.val = 45 then cs else c :: cs
    match parseUint digits with
    | .syntaxError => (0, true)
    | .rangeError => if neg then (-(2 ^ 63), true) else (2 ^ 63 - 1, true)
    | .value un =>
      if neg = false ∧ 2 ^ 63 ≤ un then (2 ^ 63 - 1, true)
      else if neg = true ∧ 2 ^ 63 < un then (-(2 ^ 63), true)
      else if neg then (wrapInt (-(un : Int)), false) else ((un : Int), false)

/-- Constant `utf8.RuneError`. -/
def RuneError : Nat := 0xFFFD

/-- The rune and its width in bytes at the start of a non-empty string, as the
`range` loop over a string decodes it (`utf8.DecodeRuneInString`): an invalid
or truncated encoding is `RuneError` of width 1. -/
def decodeRune (s : Bytes) : Nat × Nat :=
  match s with
  | [] => (RuneError, 0)
  | p0 :: rest =>
    let b0 := p0.val
    if b0 < 0x80 then (b0, 1)
    else if b0 < 0xC2 ∨ 0xF4 < b0 then (RuneError, 1)
    else
      let sz : Nat := if b0 < 0xE0 then 2 else if b0 < 0xF0 then 3 else 4
      let lo : Nat := if b0 = 0xE0 then 0xA0 else if b0 = 0xF0 then 0x90 else 0x80
      let hi : Nat := if b0 = 0xED then 0x9F else if b0 = 0xF4 then 0x8F else 0xBF
      if rest.length + 1 < sz then (RuneError, 1)
      else
        match rest with
        | [] => (RuneError, 1)
        | p1 :: rest1 =>
          let b1 := p1.val
          if b1 < lo ∨ hi < b1 then (RuneError, 1)
          else if sz ≤ 2 then ((b0 % 0x20) * 0x40 + b1 % 0x40, 2)
          else
            match rest1 with
            | [] => (RuneError, 1)
            | p2 :: rest2 =>
              let b2 := p2.val
              if b2 < 0x80 ∨ 0xBF < b2 then (RuneError, 1)
              else if sz ≤ 3 then ((b0 % 0x10) * 0x1000 + (b1 % 0x40) * 0x40 + b2 % 0x40, 3)
              else
                match rest2 with
                | [] => (RuneError, 1)
                | p3 :: _ =>
                  let b3 := p3.val
                  if b3 < 0x80 ∨ 0xBF < b3 then (RuneError, 1)
                  else ((b0 % 0x08) * 0x40000 + (b1 % 0x40) * 0x1000 + (b2 % 0x40) * 0x40
                    + b3 % 0x40, 4)

/-- Function `unicode.IsNumber`.  On ASCII the numbers are the digits `0`..`9`; above
ASCII the answer is the Unicode table of category N of the Go release in use,
which is the parameter `numberTable`. -/
def IsNumber (numberTable : Nat → Bool) (r : Nat) : Bool :=
  if r < 0x80 then decide (48 ≤ r ∧ r ≤ 57) else numberTable r

/-- The loop `for i, c := range s { if !unicode.IsNumber(c) { index = i; break } }`
of `splitServerVersion`, started with `index = 0`: `i` is the byte offset of
the head of the list and `skip` the number of bytes still belonging to the rune
decoded last.  It returns the final value of `index`, which is 0 when the loop
ends without `break`. -/
def firstNonNumber (numberTable : Nat → Bool) : Bytes → Nat → Nat → Nat
  | [], _, _ => 0
  | _ :: rest, skip + 1, i => firstNonNumber numberTable rest skip (i + 1)
  | b :: rest, 0, i =>
    let rw := decodeRune (b :: rest)
    if IsNumber numberTable rw.1 = false then i
    else firstNonNumber numberTable rest (rw.2 - 1) (i + 1)

/-- Function `splitServerVersion`. -/
def splitServerVersion (numberTable : Nat → Bool) (server : Bytes) : List Int :=
  match stringsSplit 46 server with
  | s0 :: s1 :: s2 :: _ =>
    let x := (Atoi s0).1
    let y := (Atoi s1).1
    let index := firstNonNumber numberTable s2 0 0
    let z := (Atoi (s2.take index)).1
    [x, y, z]
  | _ => [0, 0, 0]

/-- Function `calcVersionProduct`. -/
def calcVersionProduct (numberTable : Nat → Bool) (server : Bytes) : Int :=
  let versionSplit := splitServerVersion numberTable server
  intAdd (intMul (intAdd (intMul (versionSplit.getD 0 0) 256) (versionSplit.getD 1 0)) 256)
    (versionSplit.getD 2 0)

/-- Variable `checksumVersionSplitMariaDB`. -/
def checksumVersionSplitMariaDB : List Int := [5, 3, 0]

/-- Variable `checksumVersionProductMariaDB`. -/
def checksumVersionProductMariaDB : Int :=
  intAdd (intMul (intAdd (intMul (checksumVersionSplitMariaDB.getD 0 0) 256)
    (checksumVersionSplitMariaDB.getD 1 0)) 256) (checksumVersionSplitMariaDB.getD 2 0)

/-! ## `event.go`: the format description event -/

/-- Constant `BINLOG_CHECKSUM_ALG_OFF`; the constant table is not part of the
sources, the value is the one documented at `FormatDescriptionEvent.ChecksumAlgorithm`
(`0 is off, 1 is for CRC32, 255 is undefined`). -/
def BINLOG_CHECKSUM_ALG_OFF : Byte := 0

/-- Constant `BINLOG_CHECKSUM_ALG_CRC32` (see `BINLOG_CHECKSUM_ALG_OFF`). -/
def BINLOG_CHECKSUM_ALG_CRC32 : Byte := 1

/-- Constant `BINLOG_CHECKSUM_ALG_UNDEF` (see `BINLOG_CHECKSUM_ALG_OFF`). -/
def BINLOG_CHECKSUM_ALG_UNDEF : Byte := 255

/-- Struct `FormatDescriptionEvent`; the default values are the Go zero values. -/
structure FormatDescriptionEvent where
  Version : Nat := 0
  ServerVersion : Bytes := []
  CreateTimestamp : Nat := 0
  EventHeaderLength : Byte := 0
  EventTypeHeaderLengths : Bytes := []
  ChecksumAlgorithm : Byte := 0
deriving DecidableEq, Repr

/-- The statements `dst := make([]byte, n); copy(dst, src)`: the first `n` bytes of
`src`, padded with zero bytes to length `n`. -/
def makeCopy (n : Nat) (src : Bytes) : Bytes :=
  src.take n ++ List.replicate (n - src.length) 0

/-- Method `(*FormatDescriptionEvent).Decode`. -/
def FormatDescriptionEvent.Decode (numberTable : Nat → Bool) (self : FormatDescriptionEvent)
    (data : Bytes) : Run (FormatDescriptionEvent × Option Err) := do
  let pos : Int := 0
  let self := { self with Version := ← Uint16 (← sliceFrom data pos) }
  let pos := pos + 2
  let self := { self with ServerVersion := makeCopy 50 (← sliceFrom data pos) }
  let pos := pos + 50
  let self := { self with CreateTimestamp := ← Uint32 (← sliceFrom data pos) }
  let pos := pos + 4
  let self := { self with EventHeaderLength := ← index data pos }
  let pos := pos + 1
  if self.EventHeaderLength ≠ Fin.ofNat EventHeaderSize then
    .ok (self, some (.invalidHeaderLength self.EventHeaderLength.val))
  else
    let checksumProduct := checksumVersionProductMariaDB
    if checksumProduct ≤ calcVersionProduct numberTable self.ServerVersion then
      let self := { self with ChecksumAlgorithm := ← index data ((data.length : Int) - 5) }
      let self := { self with
        EventTypeHeaderLengths := ← slice data pos ((data.length : Int) - 5) }
      .ok (self, none)
    else
      let self := { self with ChecksumAlgorithm := BINLOG_CHECKSUM_ALG_UNDEF }
      let self := { self with EventTypeHeaderLengths := ← sliceFrom data pos }
      .ok (self, none)

/-! ## `event.go` and `row_event.go`: the event structs

Every struct is given with its Go zero value as default, which is what a
composite literal `&T{}` denotes. -/

/-- Struct `RotateEvent`. -/
structure RotateEvent where
  Position : Nat := 0
  NextLogName : Bytes := []
deriving DecidableEq, Repr

/-- Struct `QueryEvent`. -/
structure QueryEvent where
  SlaveProxyID : Nat := 0
  ExecutionTime : Nat := 0
  ErrorCode : Nat := 0
  StatusVars : Bytes := []
  Schema : Bytes := []
  Query : Bytes := []
deriving DecidableEq, Repr

/-- Struct `XIDEvent`. -/
structure XIDEvent where
  XID : Nat := 0
deriving DecidableEq, Repr

/-- Struct `BeginLoadQueryEvent`. -/
structure BeginLoadQueryEvent where
  FileID : Nat := 0
  BlockData : Bytes := []
deriving DecidableEq, Repr

/-- Struct `ExecuteLoadQueryEvent`. -/
structure ExecuteLoadQueryEvent where
  SlaveProxyID : Nat := 0
  ExecutionTime : Nat := 0
  SchemaLength : Byte := 0
  ErrorCode : Nat := 0
  StatusVars : Nat := 0
  FileID : Nat := 0
  StartPos : Nat := 0
  EndPos : Nat := 0
  DupHandlingFlags : Byte := 0
deriving DecidableEq, Repr

/-- Struct `MariadbAnnotaeRowsEvent`. -/
structure MariadbAnnotaeRowsEvent where
  Query : Bytes := []
deriving DecidableEq, Repr

/-- Struct `MariadbBinlogCheckPointEvent`. -/
structure MariadbBinlogCheckPointEvent where
  Info : Bytes := []
deriving DecidableEq, Repr

/-- Struct `MariadbGTID`.  Its declaration is not part of the sources; the fields are
the three that `event.go` assigns (`DomainID` and `ServerID` from `Uint32`,
`SequenceNumber` from `Uint64`). -/
structure MariadbGTID where
  DomainID : Nat := 0
  ServerID : Nat := 0
  SequenceNumber : Nat := 0
deriving DecidableEq, Repr

/-- Struct `MariadbGTIDEvent`. -/
structure MariadbGTIDEvent where
  GTID : MariadbGTID := {}
deriving DecidableEq, Repr

/-- Struct `MariadbGTIDListEvent`. -/
structure MariadbGTIDListEvent where
  GTIDs : List MariadbGTID := []
deriving DecidableEq, Repr

/-- Modelled from the spec: struct `GenericEvent`, whose declaration is not part of
the sources; "a generic opaque decoder that stores the raw body without
interpretation". -/
structure GenericEvent where
  Data : Bytes := []
deriving DecidableEq, Repr

/-- Struct `TableMapEvent`. -/
structure TableMapEvent where
  tableIDSize : Int := 0
  TableID : Nat := 0
  Flags : Nat := 0
  Schema : Bytes := []
  Table : Bytes := []
  ColumnCount : Nat := 0
  ColumnType : Bytes := []
  ColumnMeta : List Nat := []
  NullBitmap : Bytes := []
deriving DecidableEq, Repr

/-- Struct `RowsQueryEvent`. -/
structure RowsQueryEvent where
  Query : Bytes := []
deriving DecidableEq, Repr

/-- A value of a row cell (`interface{}` in `RowsEvent.Rows`): nil, `int64`,
`float64` (as its bit pattern), `bool`, `[]byte` or `string`. -/
inductive RowValue where
  | null
  | int64 (v : Int)
  | float64 (bits : Nat)
  | bool (b : Bool)
  | bytes (b : Bytes)
  | string (s : Bytes)
deriving DecidableEq, Repr

/-- A Go `map[uint64]*TableMapEvent`, as the list of its entries. -/
abbrev TableMap := List (Nat × TableMapEvent)

/-- Struct `RowsEvent`.  The field `tables` holds the parser's table map the event
was created with, `Table` is a pointer (`none` is `nil`). -/
structure RowsEvent where
  Version : Int := 0
  tableIDSize : Int := 0
  tables : TableMap := []
  needBitmap2 : Bool := false
  Table : Option TableMapEvent := none
  TableID : Nat := 0
  Flags : Nat := 0
  ExtraData : Bytes := []
  ColumnCount : Nat := 0
  ColumnBitmap1 : Bytes := []
  ColumnBitmap2 : Bytes := []
  Rows : List (List RowValue) := []
deriving DecidableEq, Repr

/-- Interface `Event`, restricted to the dynamic types `parseEvent` stores in it. -/
inductive Event where
  | rotate (e : RotateEvent)
  | query (e : QueryEvent)
  | xid (e : XIDEvent)
  | tableMap (e : TableMapEvent)
  | rows (e : RowsEvent)
  | rowsQuery (e : RowsQueryEvent)
  | beginLoadQuery (e : BeginLoadQueryEvent)
  | executeLoadQuery (e : ExecuteLoadQueryEvent)
  | mariadbAnnotateRows (e : MariadbAnnotaeRowsEvent)
  | mariadbBinlogCheckPoint (e : MariadbBinlogCheckPointEvent)
  | mariadbGTIDList (e : MariadbGTIDListEvent)
  | mariadbGTID (e : MariadbGTIDEvent)
  | generic (e : GenericEvent)
deriving DecidableEq, Repr

/-! ## `parser.go`: the dispatcher -/

/-- The event-type constants the parser refers to.  Their declaration is not part
of the sources, so the embedding takes the table as a parameter. -/
structure EventTypeCodes where
  FORMAT_DESCRIPTION_EVENT : EventType
  ROTATE_EVENT : EventType
  QUERY_EVENT : EventType
  XID_EVENT : EventType
  TABLE_MAP_EVENT : EventType
  WRITE_ROWS_EVENTv0 : EventType
  UPDATE_ROWS_EVENTv0 : EventType
  DELETE_ROWS_EVENTv0 : EventType
  WRITE_ROWS_EVENTv1 : EventType
  DELETE_ROWS_EVENTv1 : EventType
  UPDATE_ROWS_EVENTv1 : EventType
  WRITE_ROWS_EVENTv2 : EventType
  UPDATE_ROWS_EVENTv2 : EventType
  DELETE_ROWS_EVENTv2 : EventType
  ROWS_QUERY_EVENT : EventType
  BEGIN_LOAD_QUERY_EVENT : EventType
  EXECUTE_LOAD_QUERY_EVENT : EventType
  MARIADB_ANNOTATE_ROWS_EVENT : EventType
  MARIADB_BINLOG_CHECKPOINT_EVENT : EventType
  MARIADB_GTID_LIST_EVENT : EventType
  MARIADB_GTID_EVENT : EventType
deriving DecidableEq, Repr

/-- The nine row-mutation codes, in the order of the `case` list of `parseEvent`. -/
def EventTypeCodes.rowsCodes (K : EventTypeCodes) : List EventType :=
  [K.WRITE_ROWS_EVENTv0, K.UPDATE_ROWS_EVENTv0, K.DELETE_ROWS_EVENTv0,
   K.WRITE_ROWS_EVENTv1, K.DELETE_ROWS_EVENTv1, K.UPDATE_ROWS_EVENTv1,
   K.WRITE_ROWS_EVENTv2, K.UPDATE_ROWS_EVENTv2, K.DELETE_ROWS_EVENTv2]

/-- All codes `parseEvent` compares the event type with, in the order it does so. -/
def EventTypeCodes.known (K : EventTypeCodes) : List EventType :=
  [K.FORMAT_DESCRIPTION_EVENT, K.ROTATE_EVENT, K.QUERY_EVENT, K.XID_EVENT, K.TABLE_MAP_EVENT]
    ++ K.rowsCodes ++
  [K.ROWS_QUERY_EVENT, K.BEGIN_LOAD_QUERY_EVENT, K.EXECUTE_LOAD_QUERY_EVENT,
   K.MARIADB_ANNOTATE_ROWS_EVENT, K.MARIADB_BINLOG_CHECKPOINT_EVENT,
   K.MARIADB_GTID_LIST_EVENT, K.MARIADB_GTID_EVENT]

/-- The constants name pairwise different codes (for the constants of one `switch`
the Go compiler enforces it). -/
def EventTypeCodes.Distinct (K : EventTypeCodes) : Prop := K.known.Nodup

instance (K : EventTypeCodes) : Decidable K.Distinct :=
  inferInstanceAs (Decidable K.known.Nodup)

/-- The codes of the MySQL and MariaDB binlog protocol, as an instance of the table. -/
def protocolCodes : EventTypeCodes where
  FORMAT_DESCRIPTION_EVENT := 15
  ROTATE_EVENT := 4
  QUERY_EVENT := 2
  XID_EVENT := 16
  TABLE_MAP_EVENT := 19
  WRITE_ROWS_EVENTv0 := 20
  UPDATE_ROWS_EVENTv0 := 21
  DELETE_ROWS_EVENTv0 := 22
  WRITE_ROWS_EVENTv1 := 23
  DELETE_ROWS_EVENTv1 := 25
  UPDATE_ROWS_EVENTv1 := 24
  WRITE_ROWS_EVENTv2 := 30
  UPDATE_ROWS_EVENTv2 := 31
  DELETE_ROWS_EVENTv2 := 32
  ROWS_QUERY_EVENT := 29
  BEGIN_LOAD_QUERY_EVENT := 17
  EXECUTE_LOAD_QUERY_EVENT := 18
  MARIADB_ANNOTATE_ROWS_EVENT := 160
  MARIADB_BINLOG_CHECKPOINT_EVENT := 161
  MARIADB_GTID_LIST_EVENT := 163
  MARIADB_GTID_EVENT := 162

/-- Struct `BinlogParser`; `format` is a pointer (`none` is `nil`). -/
structure BinlogParser where
  format : Option FormatDescriptionEvent := none
  tables : TableMap := []
deriving DecidableEq, Repr

/-- Function `NewBinlogParser`. -/
def NewBinlogParser : BinlogParser :=
  let p : BinlogParser := {}
  let p := { p with tables := [] }
  p

/-- Method `(*BinlogParser).parseHeader`: the header (`none` is `nil`) and the error. -/
def BinlogParser.parseHeader (_self : BinlogParser) (data : Bytes) :
    Run (Option EventHeader × Option Err) := do
  let h : EventHeader := {}
  let (h, err) ← h.Decode data
  if err ≠ none then
    .ok (none, err)
  else
    .ok (some h, none)

/-- Method `(*BinlogParser).newRowsEvent`. -/
def BinlogParser.newRowsEvent (K : EventTypeCodes) (p : BinlogParser) (h : EventHeader) :
    Run RowsEvent := do
  let e : RowsEvent := {}
  let format ← (match p.format with
    | none => Run.fault .nilDereference
    | some f => Run.ok f)
  let entry ← index format.EventTypeHeaderLengths ((h.EventType - 1 : EventType).val : Int)
  let e := { e with tableIDSize := if entry = 6 then 4 else 6 }
  let e := { e with needBitmap2 := false }
  let e := { e with tables := p.tables }
  let e : RowsEvent :=
    if h.EventType = K.WRITE_ROWS_EVENTv0 then { e with Version := 0 }
    else if h.EventType = K.UPDATE_ROWS_EVENTv0 then { e with Version := 0 }
    else if h.EventType = K.DELETE_ROWS_EVENTv0 then { e with Version := 0 }
    else if h.EventType = K.WRITE_ROWS_EVENTv1 then { e with Version := 1 }
    else if h.EventType = K.DELETE_ROWS_EVENTv1 then { e with Version := 1 }
    else if h.EventType = K.UPDATE_ROWS_EVENTv1 then { e with Version := 1, needBitmap2 := true }
    else if h.EventType = K.WRITE_ROWS_EVENTv2 then { e with Version := 2 }
    else if h.EventType = K.UPDATE_ROWS_EVENTv2 then { e with Version := 2, needBitmap2 := true }
    else if h.EventType = K.DELETE_ROWS_EVENTv2 then { e with Version := 2 }
    else e
  .ok e

/-- Lines 102 to 104 of `parseEvent`: the value of the local `data` after
`if self.format != nil && self.format.ChecksumAlgorithm == BINLOG_CHECKSUM_ALG_CRC32
{ data = data[0 : len(data)-4] }`. -/
def BinlogParser.stripChecksum (self : BinlogParser) (data : Bytes) : Run Bytes :=
  match self.format with
  | none => .ok data
  | some format =>
    if format.ChecksumAlgorithm = BINLOG_CHECKSUM_ALG_CRC32 then
      slice data 0 ((data.length : Int) - 4)
    else .ok data

/-- Method `(*BinlogParser).parseEvent`: the parser after the call, the returned event
(`none` is the nil interface) and the returned error. -/
def BinlogParser.parseEvent (K : EventTypeCodes) (self : BinlogParser) (h : EventHeader)
    (data : Bytes) : Run (BinlogParser × Option Event × Option Err) :=
  if h.EventType = K.FORMAT_DESCRIPTION_EVENT then
    let self := { self with format := some {} }
    .ok (self, none, none)
  else do
    let _ ← self.stripChecksum data
    if h.EventType = K.ROTATE_EVENT then
      .ok (self, some (.rotate {}), none)
    else if h.EventType = K.QUERY_EVENT then
      .ok (self, some (.query {}), none)
    else if h.EventType = K.XID_EVENT then
      .ok (self, some (.xid {}), none)
    else if h.EventType = K.TABLE_MAP_EVENT then
      let te : TableMapEvent := {}
      let format ← (match self.format with
        | none => Run.fault .nilDereference
        | some f => Run.ok f)
      let entry ← index format.EventTypeHeaderLengths ((K.TABLE_MAP_EVENT - 1 : EventType).val : Int)
      let te := { te with tableIDSize := if entry = 6 then 4 else 6 }
      .ok (self, some (.tableMap te), none)
    else if h.EventType ∈ K.rowsCodes then
      let e ← self.newRowsEvent K h
      .ok (self, some (.rows e), none)
    else if h.EventType = K.ROWS_QUERY_EVENT then
      .ok (self, some (.rowsQuery {}), none)
    else if h.EventType = K.BEGIN_LOAD_QUERY_EVENT then
      .ok (self, some (.beginLoadQuery {}), none)
    else if h.EventType = K.EXECUTE_LOAD_QUERY_EVENT then
      .ok (self, some (.executeLoadQuery {}), none)
    else if h.EventType = K.MARIADB_ANNOTATE_ROWS_EVENT then
      .ok (self, some (.mariadbAnnotateRows {}), none)
    else if h.EventType = K.MARIADB_BINLOG_CHECKPOINT_EVENT then
      .ok (self, some (.mariadbBinlogCheckPoint {}), none)
    else if h.EventType = K.MARIADB_GTID_LIST_EVENT then
      .ok (self, some (.mariadbGTIDList {}), none)
    else if h.EventType = K.MARIADB_GTID_EVENT then
      let ee : MariadbGTIDEvent := {}
      let ee := { ee with GTID := { ee.GTID with ServerID := h.ServerID } }
      .ok (self, some (.mariadbGTID ee), none)
    else
      .ok (self, some (.generic {}), none)

/-! ## `event.go` and `row_event.go`: the scalar decoders

No slice expression of these decoders has an upper bound above `len(data)`
unless an earlier read has succeeded only because the data is long enough, so
the capacity of `data` plays no role except in `QueryEvent.Decode`, where
`slice` takes the capacity to be the length. -/

/-- Method `(*RotateEvent).Decode`. -/
def RotateEvent.Decode (self : RotateEvent) (data : Bytes) : Run (RotateEvent × Option Err) := do
  let self := { self with Position := ← Uint64 (← sliceFrom data 0) }
  let self := { self with NextLogName := ← sliceFrom data 8 }
  .ok (self, none)

/-- Method `(*QueryEvent).Decode`. -/
def QueryEvent.Decode (self : QueryEvent) (data : Bytes) : Run (QueryEvent × Option Err) := do
  let pos : Int := 0
  let self := { self with SlaveProxyID := ← Uint32 (← sliceFrom data pos) }
  let pos := pos + 4
  let self := { self with ExecutionTime := ← Uint32 (← sliceFrom data pos) }
  let pos := pos + 4
  let schemaLength ← index data pos
  let pos := pos + 1
  let self := { self with ErrorCode := ← Uint16 (← sliceFrom data pos) }
  let pos := pos + 2
  let statusVarsLength ← Uint16 (← sliceFrom data pos)
  let pos := pos + 2
  let self := { self with StatusVars := ← slice data pos (pos + (statusVarsLength : Int)) }
  let pos := pos + (statusVarsLength : Int)
  let self := { self with Schema := ← slice data pos (pos + (schemaLength.val : Int)) }
  let pos := pos + (schemaLength.val : Int)
  let pos := pos + 1
  let self := { self with Query := ← sliceFrom data pos }
  .ok (self, none)

/-- Method `(*XIDEvent).Decode`. -/
def XIDEvent.Decode (self : XIDEvent) (data : Bytes) : Run (XIDEvent × Option Err) := do
  let self := { self with XID := ← Uint64 data }
  .ok (self, none)

/-- Method `(*BeginLoadQueryEvent).Decode`. -/
def BeginLoadQueryEvent.Decode (self : BeginLoadQueryEvent) (data : Bytes) :
    Run (BeginLoadQueryEvent × Option Err) := do
  let pos : Int := 0
  let self := { self with FileID := ← Uint32 (← sliceFrom data pos) }
  let pos := pos + 4
  let self := { self with BlockData := ← sliceFrom data pos }
  .ok (self, none)

/-- Method `(*ExecuteLoadQueryEvent).Decode`. -/
def ExecuteLoadQueryEvent.Decode (self : ExecuteLoadQueryEvent) (data : Bytes) :
    Run (ExecuteLoadQueryEvent × Option Err) := do
  let pos : Int := 0
  let self := { self with SlaveProxyID := ← Uint32 (← sliceFrom data pos) }
  let pos := pos + 4
  let self := { self with ExecutionTime := ← Uint32 (← sliceFrom data pos) }
  let pos := pos + 4
  let self := { self with SchemaLength := ← index data pos }
  let pos := pos + 1
  let self := { self with ErrorCode := ← Uint16 (← sliceFrom data pos) }
  let pos := pos + 2
  let self := { self with StatusVars := ← Uint16 (← sliceFrom data pos) }
  let pos := pos + 2
  let self := { self with FileID := ← Uint32 (← sliceFrom data pos) }
  let pos := pos + 4
  let self := { self with StartPos := ← Uint32 (← sliceFrom data pos) }
  let pos := pos + 4
  let self := { self with EndPos := ← Uint32 (← sliceFrom data pos) }
  let pos := pos + 4
  let self := { self with DupHandlingFlags := ← index data pos }
  .ok (self, none)

/-- Method `(*MariadbAnnotaeRowsEvent).Decode`. -/
def MariadbAnnotaeRowsEvent.Decode (self : MariadbAnnotaeRowsEvent) (data : Bytes) :
    Run (MariadbAnnotaeRowsEvent × Option Err) :=
  let self := { self with Query := data }
  .ok (self, none)

/-- Method `(*MariadbBinlogCheckPointEvent).Decode`. -/
def MariadbBinlogCheckPointEvent.Decode (self : MariadbBinlogCheckPointEvent) (data : Bytes) :
    Run (MariadbBinlogCheckPointEvent × Option Err) :=
  let self := { self with Info := data }
  .ok (self, none)

/-- Method `(*MariadbGTIDEvent).Decode`. -/
def MariadbGTIDEvent.Decode (self : MariadbGTIDEvent) (data : Bytes) :
    Run (MariadbGTIDEvent × Option Err) := do
  let self := { self with GTID := { self.GTID with SequenceNumber := ← Uint64 data } }
  let self := { self with GTID := { self.GTID with DomainID := ← Uint32 (← sliceFrom data 8) } }
  .ok (self, none)

/-- The assignment `s[i].field = v` on a slice of structs, for an index in range. -/
def updateAt {α : Type} : List α → Nat → (α → α) → List α
  | [], _, _ => []
  | a :: as, 0, f => f a :: as
  | a :: as, i + 1, f => a :: updateAt as i f

/-- The `for i := uint32(0); i < count; i++` loop of `MariadbGTIDListEvent.Decode`,
with `remaining = count - i` iterations to go, the current `pos` and the
current value of `self.GTIDs`. -/
def MariadbGTIDListEvent.DecodeLoop (data : Bytes) :
    Nat → Nat → Int → List MariadbGTID → Run (List MariadbGTID)
  | 0, _, _, gtids => .ok gtids
  | remaining + 1, i, pos, gtids => do
    let d ← Uint32 (← sliceFrom data pos)
    let gtids := updateAt gtids i (fun g => { g with DomainID := d })
    let pos := pos + 4
    let s ← Uint32 (← sliceFrom data pos)
    let gtids := updateAt gtids i (fun g => { g with ServerID := s })
    let pos := pos + 4
    let q ← Uint64 (← sliceFrom data pos)
    let gtids := updateAt gtids i (fun g => { g with SequenceNumber := q })
    MariadbGTIDListEvent.DecodeLoop data remaining (i + 1) pos gtids

/-- Method `(*MariadbGTIDListEvent).Decode`. -/
def MariadbGTIDListEvent.Decode (self : MariadbGTIDListEvent) (data : Bytes) :
    Run (MariadbGTIDListEvent × Option Err) := do
  let pos : Int := 0
  let v ← Uint32 (← sliceFrom data pos)
  let pos := pos + 4
  let count := v % 2 ^ 28
  let self := { self with GTIDs := List.replicate count {} }
  let gtids ← MariadbGTIDListEvent.DecodeLoop data count 0 pos self.GTIDs
  let self := { self with GTIDs := gtids }
  .ok (self, none)

/-- Method `(*RowsQueryEvent).Decode`. -/
def RowsQueryEvent.Decode (e : RowsQueryEvent) (data : Bytes) :
    Run (RowsQueryEvent × Option Err) := do
  let e := { e with Query := ← sliceFrom data 1 }
  .ok (e, none)

/-! ## `parser.go`: the scan loop

The reader is a finite byte sequence: `io.ReadFull` and `io.CopyN` take bytes
from its front, and the reader's state is the sequence of bytes not yet read. -/

/-- What a call of `Parse` or `ParseFile` leaves behind: the parser, the returned
error, the bytes not read from the reader, and (as a record of the run) the
header bytes and body of every iteration that reached `parseEvent`. -/
structure ParseOutcome where
  parser : BinlogParser
  err : Option Err
  records : List (Bytes × Bytes)
  rest : Bytes
deriving DecidableEq, Repr

/-- Effect of one iteration of the `for` loop of `Parse`: it returns from `Parse` or
panics (`stop`), or goes on to the next iteration. -/
inductive ParseStep where
  | stop (out : Run ParseOutcome)
  | next (self : BinlogParser) (r : Bytes) (done : List (Bytes × Bytes))

/-- One iteration of the `for` loop of `Parse`, on the parser `self`, the unread
bytes `r` and the iterations recorded so far. -/
def BinlogParser.ParseIteration (K : EventTypeCodes) (self : BinlogParser) (r : Bytes)
    (done : List (Bytes × Bytes)) : ParseStep :=
  -- headBuf := make([]byte, EventHeaderSize); io.ReadFull(r, headBuf)
  if r.length = 0 then
    .stop (.ok { parser := self, err := none, records := done, rest := [] })
  else if r.length < EventHeaderSize then
    .stop (.ok { parser := self, err := some .ErrUnexpectedEOF, records := done, rest := [] })
  else
    let headBuf := r.take EventHeaderSize
    let r := r.drop EventHeaderSize
    match self.parseHeader headBuf with
    | .fault p => .stop (.fault p)
    | .ok (_, some err) =>
      .stop (.ok { parser := self, err := some err, records := done, rest := r })
    | .ok (none, none) => .stop (.fault .nilDereference)
    | .ok (some h, none) =>
      if h.EventSize ≤ EventHeaderSize then
        .stop (.ok { parser := self, err := some (.eventSizeTooSmall h.EventSize),
                     records := done, rest := r })
      else
        -- io.CopyN(&buf, r, int64(h.EventSize)-int64(EventHeaderSize))
        let n := h.EventSize - EventHeaderSize
        if r.length < n then
          .stop (.ok { parser := self, err := some (.getEventBody h.EventSize r.length),
                       records := done, rest := [] })
        else
          let data := r.take n
          let r := r.drop n
          let eventLen := h.EventSize - EventHeaderSize
          if data.length ≠ eventLen then
            .stop (.ok { parser := self, err := some (.invalidDataSize data.length eventLen),
                         records := done, rest := r })
          else
            match self.parseEvent K h data with
            | .fault p => .stop (.fault p)
            | .ok (self, _, _) => .next self r (done ++ [(headBuf, data)])

/-- The `for` loop of `Parse`, run for at most `fuel` iterations; `none` means that
the loop is still running after `fuel` iterations. -/
def BinlogParser.ParseLoop (K : EventTypeCodes) :
    Nat → BinlogParser → Bytes → List (Bytes × Bytes) → Option (Run ParseOutcome)
  | 0, _, _, _ => none
  | fuel + 1, self, r, done =>
    match self.ParseIteration K r done with
    | .stop out => some out
    | .next self r done => BinlogParser.ParseLoop K fuel self r done

/-- Method `(*BinlogParser).Parse` on a reader holding the bytes `r`, with the loop
run for `len(r)/20 + 1` iterations. -/
def BinlogParser.Parse (K : EventTypeCodes) (self : BinlogParser) (r : Bytes) :
    Option (Run ParseOutcome) :=
  let self := { self with tables := [] }
  BinlogParser.ParseLoop K (r.length / 20 + 1) self r []

/-- The bytes the recorded iterations took from the reader, in order: header bytes
and body of each (specification side). -/
def recordBytes : List (Bytes × Bytes) → Bytes
  | [] => []
  | rec :: rest => rec.1 ++ rec.2 ++ recordBytes rest

/-- A complete record that `parseEvent` can dispatch without a header-length
lookup (specification side): 19 header bytes that decode without error, a body
of declared size - 19 bytes that is not empty, and a type that is neither
TABLE_MAP nor a row-mutation code. -/
def CompleteRecord (K : EventTypeCodes) (rec : Bytes × Bytes) : Prop :=
  rec.1.length = 19 ∧ 1 ≤ rec.2.length ∧
  ∃ h, EventHeader.Decode {} rec.1 = .ok (h, none) ∧ h.EventSize = 19 + rec.2.length ∧
    h.EventType ≠ K.TABLE_MAP_EVENT ∧ h.EventType ∉ K.rowsCodes

/-- The parser has no format descriptor, or one whose checksum algorithm is not
CRC32 (specification side). -/
def NoChecksumStrip (p : BinlogParser) : Prop :=
  ∀ fd, p.format = some fd → fd.ChecksumAlgorithm ≠ BINLOG_CHECKSUM_ALG_CRC32

/-- The parser states a run of the package reaches (specification side): the state
`NewBinlogParser` returns, the state after the first statement of `Parse`
(`self.tables = make(...)`), and the state after a call of `parseEvent` that
returns.  No other statement of the package assigns a field of the parser. -/
inductive Reachable (K : EventTypeCodes) : BinlogParser → Prop
  | new : Reachable K NewBinlogParser
  | parse (p : BinlogParser) : Reachable K p → Reachable K { p with tables := [] }
  | event (p q : BinlogParser) (h : EventHeader) (data : Bytes) (e : Option Event)
      (err : Option Err) :
      Reachable K p → p.parseEvent K h data = .ok (q, e, err) → Reachable K q

/-- Variable `BinLogFileHeader`.  Its declaration is not part of the sources; the
value is the one the error message of `ParseFile` documents
(`head 4 bytes must fe'bin'`). -/
def BinLogFileHeader : Bytes := [0xfe, 0x62, 0x69, 0x6e]

/-- Method `(*BinlogParser).ParseFile`.  The file is given by the result of
`os.Open` (`none` when opening fails, otherwise the contents of the file);
`file.Read` fills the buffer from the front of the file and reports `io.EOF`
on an empty file, and `file.Seek` to a non-negative offset succeeds. -/
def BinlogParser.ParseFile (K : EventTypeCodes) (self : BinlogParser) (file : Option Bytes)
    (offset : Int) : Option (Run ParseOutcome) :=
  match file with
  | none => some (.ok { parser := self, err := some .openFailed, records := [], rest := [] })
  | some contents =>
    if contents.length = 0 then
      some (.ok { parser := self, err := some .EOF, records := [], rest := [] })
    else
      let magic := makeCopy 4 contents
      if magic ≠ BinLogFileHeader then
        some (.ok { parser := self, err := some .notValidBinlogFile, records := [],
                    rest := contents.drop 4 })
      else
        let offset := if offset < 4 then 4 else offset
        self.Parse K (contents.drop offset.toNat)

/-! ## Specification-side encoders and sample inputs -/

/-- Little-endian encoding of `n` on `width` bytes (specification side; the sources
have no encoder). -/
def leBytes : Nat → Nat → Bytes
  | 0, _ => []
  | width + 1, n => Fin.ofNat (n % 256) :: leBytes width (n / 256)

/-- Specification-side encoder of a format description body with a checksum
trailer: `LE16(v) ++ s ++ LE32(t) ++ [19] ++ L ++ [a] ++ r`. -/
def encodeFormatDescription (v : Nat) (s : Bytes) (t : Nat) (L : Bytes) (a : Byte)
    (r : Bytes) : Bytes :=
  leBytes 2 v ++ s ++ leBytes 4 t ++ [19] ++ L ++ [a] ++ r

/-- A header: timestamp 1, type 16, server id 2, event size 27, log position 100,
flags 0, followed by one more byte. -/
def sampleHeaderBytes : Bytes :=
  [1, 0, 0, 0, 16, 2, 0, 0, 0, 27, 0, 0, 0, 100, 0, 0, 0, 0, 0, 99]

/-- The header `sampleHeaderBytes` encodes. -/
def sampleHeader : EventHeader :=
  { Timestamp := 1, EventType := 16, ServerID := 2, EventSize := 27, LogPos := 100, Flags := 0 }

/-- The server version `5.7.20-log`, padded with zero bytes to 50 bytes. -/
def sampleServerVersion : Bytes :=
  [53, 46, 55, 46, 50, 48, 45, 108, 111, 103] ++ List.replicate 40 0

/-- A header-length table with 40 entries, the entry of code 19 (index 18) being 8
and the entry of code 31 (index 30) being 6. -/
def sampleLengths : Bytes :=
  List.replicate 18 0 ++ [8] ++ List.replicate 11 10 ++ [6] ++ List.replicate 9 0

/-- A format description body: version 4, `sampleServerVersion`, timestamp 7, header
length 19, `sampleLengths`, checksum algorithm 1 and four reserved bytes. -/
def sampleFormatBody : Bytes :=
  encodeFormatDescription 4 sampleServerVersion 7 sampleLengths 1 [0, 0, 0, 0]

/-- The descriptor `sampleFormatBody` encodes. -/
def sampleFormat : FormatDescriptionEvent :=
  { Version := 4, ServerVersion := sampleServerVersion, CreateTimestamp := 7,
    EventHeaderLength := 19, EventTypeHeaderLengths := sampleLengths, ChecksumAlgorithm := 1 }

/-- A parser whose descriptor has `sampleLengths` and the CRC32 checksum algorithm. -/
def sampleParserCRC32 : BinlogParser :=
  { format := some { EventTypeHeaderLengths := sampleLengths, ChecksumAlgorithm := 1 },
    tables := [] }

/-- A parser whose descriptor has `sampleLengths` and no checksum. -/
def sampleParserOff : BinlogParser :=
  { format := some { EventTypeHeaderLengths := sampleLengths, ChecksumAlgorithm := 0 },
    tables := [] }

/-- The parser state with table map `tables` whose descriptor is `fd` with the
checksum algorithm set to `alg` (specification side). -/
def parserWithChecksum (fd : FormatDescriptionEvent) (tables : TableMap) (alg : Byte) :
    BinlogParser :=
  { format := some { fd with ChecksumAlgorithm := alg }, tables := tables }

/-- The version string `5.7.20`. -/
def sampleVersionBare : Bytes := [53, 46, 55, 46, 50, 48]

/-- The version string `5.7.20-`. -/
def sampleVersionDash : Bytes := [53, 46, 55, 46, 50, 48, 45]

/-- The body of an XID event with transaction identifier 99. -/
def sampleXIDBody : Bytes := leBytes 8 99

/-- The body of a MariaDB GTID-list event with count 2 (flag bits 0) and the
triplets (1, 2, 3) and (4, 5, 6). -/
def sampleGTIDListBody : Bytes :=
  leBytes 4 2 ++ (leBytes 4 1 ++ leBytes 4 2 ++ leBytes 8 3)
    ++ (leBytes 4 4 ++ leBytes 4 5 ++ leBytes 8 6)

/-- The start of a rows-event body: table identifier 1 on 6 bytes, flags 0, an
extra-data length of 2, column count 1 and one bitmap byte. -/
def sampleRowsBody : Bytes := [1, 0, 0, 0, 0, 0, 0, 0, 2, 0, 1, 1]

/-- A record that is a header only: type 3, server id 1, declared event size 19
(an empty body), log position 23. -/
def sampleEmptyRecord : Bytes :=
  [0, 0, 0, 0, 3, 1, 0, 0, 0, 19, 0, 0, 0, 23, 0, 0, 0, 0, 0]

/-- A complete XID record: a header of type 16 with declared event size 27, and the
8-byte body `sampleXIDBody`. -/
def sampleXIDRecord : Bytes :=
  [0, 0, 0, 0, 16, 1, 0, 0, 0, 27, 0, 0, 0, 50, 0, 0, 0, 0, 0] ++ sampleXIDBody

/-- A format description body whose header-length table has an entry (8) for every
event-type code from 1 to 255: version 4, `sampleServerVersion`, timestamp 7,
header length 19, the table, checksum algorithm 0 and four reserved bytes. -/
def sampleFullFormatBody : Bytes :=
  encodeFormatDescription 4 sampleServerVersion 7 (List.replicate 255 8) 0 [0, 0, 0, 0]

/-- The parser after `parseEvent` has processed a FORMAT_DESCRIPTION event from the
state `NewBinlogParser`: the descriptor is the zero value. -/
def sampleParserAfterFormat : BinlogParser := { format := some {}, tables := [] }

/-- A query body: proxy id 1, execution time 2, schema length 2, error code 3,
status-vars length 1, status vars `[77]`, schema `db`, a zero byte and the
query text `SQL`. -/
def sampleQueryBody : Bytes :=
  [1, 0, 0, 0, 2, 0, 0, 0, 2, 3, 0, 1, 0, 77, 100, 98, 0, 83, 81, 76]

/-- A file that starts with `fe 'b' 'i'` and then differs from the magic value,
followed by the XID record. -/
def sampleBadMagicFile : Bytes := [0xfe, 0x62, 0x69, 0x00] ++ sampleXIDRecord

/-! ## Basic facts about the run-time model -/

@[simp] theorem Run.ok_bind {α β : Type} (a : α) (f : α → Run β) :
    (Run.ok a >>= f) = f a := rfl

@[simp] theorem Run.fault_bind {α β : Type} (p : Panic) (f : α → Run β) :
    (Run.fault p >>= f) = Run.fault p := rfl

@[simp] theorem Run.pure_eq {α : Type} (a : α) : (pure a : Run α) = Run.ok a := rfl

theorem sliceFrom_ok (s : Bytes) (lo : Int) (h0 : 0 ≤ lo) (h : lo ≤ s.length) :
    sliceFrom s lo = .ok (s.drop lo.toNat) := by
  simp [sliceFrom, h0, h]

theorem slice_ok (s : Bytes) (lo hi : Int) (h0 : 0 ≤ lo) (h1 : lo ≤ hi) (h : hi ≤ s.length) :
    slice s lo hi = .ok ((s.drop lo.toNat).take (hi - lo).toNat) := by
  simp [slice, h0, h1, h]

theorem index_ok {α : Type} (s : List α) (i : Int) (a : α) (h0 : 0 ≤ i)
    (h : s[i.toNat]? = some a) : index s i = .ok a := by
  simp [index, h0, h]

theorem Uint16_ok (d : Bytes) (h : 2 ≤ d.length) : Uint16 d = .ok (leValue (d.take 2)) := by
  match d, h with
  | b0 :: b1 :: t, _ => simp [Uint16, leValue]; omega

theorem Uint32_ok (d : Bytes) (h : 4 ≤ d.length) : Uint32 d = .ok (leValue (d.take 4)) := by
  match d, h with
  | b0 :: b1 :: b2 :: b3 :: t, _ => simp [Uint32, leValue]; omega

theorem Uint64_ok (d : Bytes) (h : 8 ≤ d.length) : Uint64 d = .ok (leValue (d.take 8)) := by
  match d, h with
  | b0 :: b1 :: b2 :: b3 :: b4 :: b5 :: b6 :: b7 :: t, _ => simp [Uint64, leValue]; omega

theorem Uint16_drop (s : Bytes) (n : Nat) (h : n + 2 ≤ s.length) :
    Uint16 (s.drop n) = .ok (leValue (window s n 2)) :=
  Uint16_ok _ (by simp; omega)

theorem Uint32_drop (s : Bytes) (n : Nat) (h : n + 4 ≤ s.length) :
    Uint32 (s.drop n) = .ok (leValue (window s n 4)) :=
  Uint32_ok _ (by simp; omega)

theorem get?_isSome_of_lt {α : Type} (s : List α) (n : Nat) (h : n < s.length) :
    ∃ a, s[n]? = some a := ⟨s[n], by simp [h]⟩

/-- The header decoder on a slice of at least 19 bytes: no panic, and every field
is the little-endian reading of its window. -/
theorem EventHeader.Decode_header_long (self : EventHeader) (data : Bytes) (b4 : Byte)
    (hlen : 19 ≤ data.length) (h4 : data[4]? = some b4) :
    EventHeader.Decode self data =
      .ok ({ Timestamp := leValue (window data 0 4), EventType := b4,
             ServerID := leValue (window data 5 4), EventSize := leValue (window data 9 4),
             LogPos := leValue (window data 13 4), Flags := leValue (window data 17 2) },
           if leValue (window data 9 4) < 19 then
             some (.invalidEventSize (leValue (window data 9 4))) else none) := by
  have e0 : sliceFrom data 0 = .ok (data.drop 0) := sliceFrom_ok data 0 (by omega) (by omega)
  have e5 : sliceFrom data 5 = .ok (data.drop 5) := sliceFrom_ok data 5 (by omega) (by omega)
  have e9 : sliceFrom data 9 = .ok (data.drop 9) := sliceFrom_ok data 9 (by omega) (by omega)
  have e13 : sliceFrom data 13 = .ok (data.drop 13) :=
    sliceFrom_ok data 13 (by omega) (by omega)
  have e17 : sliceFrom data 17 = .ok (data.drop 17) :=
    sliceFrom_ok data 17 (by omega) (by omega)
  have i4 : index data 4 = .ok b4 := index_ok data 4 b4 (by omega) h4
  have hn : ¬ data.length < EventHeaderSize := by simp [EventHeaderSize]; omega
  simp only [EventHeader.Decode, hn, if_false]
  norm_num only
  have u0 := Uint32_drop data 0 (by omega)
  have u5 := Uint32_drop data 5 (by omega)
  have u9 := Uint32_drop data 9 (by omega)
  have u13 := Uint32_drop data 13 (by omega)
  have u17 := Uint16_drop data 17 (by omega)
  simp only [e0, e5, e9, e13, e17, i4, u0, u5, u9, u13, u17, Run.ok_bind, EventHeaderSize]
  split <;> rfl

theorem window_take (data : Bytes) (m k n : Nat) (h : k + n ≤ m) :
    window (data.take m) k n = window data k n := by
  simp only [window, List.drop_take, List.take_take]
  congr 1
  omega

theorem window_congr (data data2 : Bytes) (m k n : Nat) (h : k + n ≤ m)
    (heq : data2.take m = data.take m) : window data2 k n = window data k n := by
  rw [← window_take data2 m k n h, heq, window_take data m k n h]

theorem getElem?_congr_take (data data2 : Bytes) (m k : Nat) (h : k < m)
    (heq : data2.take m = data.take m) : data2[k]? = data[k]? := by
  have h1 : (data2.take m)[k]? = data2[k]? := by simp [List.getElem?_take, h]
  have h2 : (data.take m)[k]? = data[k]? := by simp [List.getElem?_take, h]
  rw [← h1, heq, h2]

/-! ## The event header (C1, C2) -/

/-- C1: for every byte sequence, `EventHeader.Decode` terminates without panic and
returns an error exactly when the sequence has fewer than 19 bytes or the
little-endian 32-bit value at bytes 9..12 is below 19; `parseHeader`, which
decodes into a fresh header, fails in exactly the same cases and then returns
no header. -/
theorem EventHeader.Decode_header_error_iff (self : EventHeader) (p : BinlogParser) (data : Bytes) :
    (∃ h err, EventHeader.Decode self data = .ok (h, err) ∧
      (err ≠ none ↔ (data.length < 19 ∨ leValue (window data 9 4) < 19))) ∧
    (∃ oh err, p.parseHeader data = .ok (oh, err) ∧
      (err ≠ none ↔ (data.length < 19 ∨ leValue (window data 9 4) < 19)) ∧
      (oh = none ↔ err ≠ none)) := by
  by_cases hlen : data.length < 19
  · have hd : ∀ s : EventHeader,
        EventHeader.Decode s data = .ok (s, some (.headerTooShort data.length)) := by
      intro s
      simp [EventHeader.Decode, EventHeaderSize, hlen]
    refine ⟨⟨self, _, hd self, by simp [hlen]⟩, ⟨none, some (.headerTooShort data.length), ?_, ?_⟩⟩
    · simp [BinlogParser.parseHeader, hd]
    · simp [hlen]
  · have hlen2 : 19 ≤ data.length := by omega
    obtain ⟨b4, h4⟩ := get?_isSome_of_lt data 4 (by omega)
    have hd := fun s : EventHeader => EventHeader.Decode_header_long s data b4 hlen2 h4
    by_cases hsz : leValue (window data 9 4) < 19
    · refine ⟨⟨_, _, hd self, by simp [hsz]⟩,
        ⟨none, some (.invalidEventSize (leValue (window data 9 4))), ?_, ?_⟩⟩
      · simp [BinlogParser.parseHeader, hd, hsz]
      · simp [hsz]
    · refine ⟨⟨_, _, hd self, by simp [hsz, hlen]⟩,
        ⟨some { Timestamp := leValue (window data 0 4), EventType := b4,
                ServerID := leValue (window data 5 4), EventSize := leValue (window data 9 4),
                LogPos := leValue (window data 13 4), Flags := leValue (window data 17 2) },
         none, ?_, ?_⟩⟩
      · simp [BinlogParser.parseHeader, hd, hsz]
      · simp [hsz, hlen]

/-- C2: on a byte sequence of at least 19 bytes on which `EventHeader.Decode`
succeeds, the decoded header is the little-endian reading of the fixed layout
(timestamp at 0..3, type at 4, server id at 5..8, event size at 9..12, log
position at 13..16, flags at 17..18), whatever the receiver held before, and
any byte sequence with the same first 19 bytes decodes to the same header. -/
theorem EventHeader.Decode_layout (self h : EventHeader) (data : Bytes)
    (hlen : 19 ≤ data.length) (hdec : EventHeader.Decode self data = .ok (h, none)) :
    h.Timestamp = leValue (window data 0 4) ∧
    data[4]? = some h.EventType ∧
    h.ServerID = leValue (window data 5 4) ∧
    h.EventSize = leValue (window data 9 4) ∧
    h.LogPos = leValue (window data 13 4) ∧
    h.Flags = leValue (window data 17 2) ∧
    ∀ (other : EventHeader) (data2 : Bytes), data2.take 19 = data.take 19 →
      EventHeader.Decode other data2 = .ok (h, none) := by
  obtain ⟨b4, h4⟩ := get?_isSome_of_lt data 4 (by omega)
  have hd := EventHeader.Decode_header_long self data b4 hlen h4
  rw [hd] at hdec
  simp only [Run.ok.injEq, Prod.mk.injEq] at hdec
  obtain ⟨hh, herr⟩ := hdec
  have hsz : ¬ leValue (window data 9 4) < 19 := by
    intro hlt
    simp [hlt] at herr
  subst hh
  refine ⟨rfl, h4, rfl, rfl, rfl, rfl, ?_⟩
  intro other data2 heq
  have hlen2 : 19 ≤ data2.length := by
    have := congrArg List.length heq
    simp only [List.length_take] at this
    omega
  have h42 : data2[4]? = some b4 := by
    rw [getElem?_congr_take data data2 19 4 (by omega) heq, h4]
  rw [EventHeader.Decode_header_long other data2 b4 hlen2 h42]
  rw [window_congr data data2 19 0 4 (by omega) heq, window_congr data data2 19 5 4 (by omega) heq,
    window_congr data data2 19 9 4 (by omega) heq, window_congr data data2 19 13 4 (by omega) heq,
    window_congr data data2 19 17 2 (by omega) heq]
  simp [hsz]

/-! ## The format description event (C3, C4) -/

theorem makeCopy_of_le (n : Nat) (src : Bytes) (h : n ≤ src.length) :
    makeCopy n src = src.take n := by
  simp [makeCopy, Nat.sub_eq_zero_of_le h]

theorem index_nat {α : Type} (s : List α) (n : Nat) (a : α) (h : s[n]? = some a) :
    index s (n : Int) = .ok a :=
  index_ok s n a (by omega) (by simpa using h)

theorem checksumVersionProductMariaDB_eq : checksumVersionProductMariaDB = 328448 := by rfl

/-- The format description decoder on a body of at least 62 bytes: no panic, and the
three outcomes (wrong header length, checksum trailer, no checksum trailer). -/
theorem FormatDescriptionEvent.Decode_format_long (N : Nat → Bool) (self : FormatDescriptionEvent)
    (data : Bytes) (b a : Byte) (hlen : 62 ≤ data.length) (h56 : data[56]? = some b)
    (ha : data[data.length - 5]? = some a) :
    FormatDescriptionEvent.Decode N self data =
      if b ≠ 19 then
        .ok ({ self with Version := leValue (window data 0 2), ServerVersion := window data 2 50,
                         CreateTimestamp := leValue (window data 52 4), EventHeaderLength := b },
             some (.invalidHeaderLength b.val))
      else if 328448 ≤ calcVersionProduct N (window data 2 50) then
        .ok ({ Version := leValue (window data 0 2), ServerVersion := window data 2 50,
               CreateTimestamp := leValue (window data 52 4), EventHeaderLength := b,
               EventTypeHeaderLengths := window data 57 (data.length - 62),
               ChecksumAlgorithm := a }, none)
      else
        .ok ({ Version := leValue (window data 0 2), ServerVersion := window data 2 50,
               CreateTimestamp := leValue (window data 52 4), EventHeaderLength := b,
               EventTypeHeaderLengths := data.drop 57,
               ChecksumAlgorithm := 255 }, none) := by
  have e0 : sliceFrom data 0 = .ok (data.drop 0) := sliceFrom_ok data 0 (by omega) (by omega)
  have e2 : sliceFrom data 2 = .ok (data.drop 2) := sliceFrom_ok data 2 (by omega) (by omega)
  have e52 : sliceFrom data 52 = .ok (data.drop 52) :=
    sliceFrom_ok data 52 (by omega) (by omega)
  have e57 : sliceFrom data 57 = .ok (data.drop 57) :=
    sliceFrom_ok data 57 (by omega) (by omega)
  have u0 := Uint16_drop data 0 (by omega)
  have u52 := Uint32_drop data 52 (by omega)
  have i56 : index data 56 = .ok b := index_ok data 56 b (by omega) h56
  have hcast : ((data.length : Int) - 5) = ((data.length - 5 : Nat) : Int) := by omega
  have ia : index data ((data.length : Int) - 5) = .ok a := by
    rw [hcast]
    exact index_nat data _ a ha
  have sl : slice data 57 ((data.length : Int) - 5) = .ok (window data 57 (data.length - 62)) := by
    rw [slice_ok data 57 _ (by omega) (by omega) (by omega)]
    have : ((data.length : Int) - 5 - 57).toNat = data.length - 62 := by omega
    rw [this]
    rfl
  have mc : makeCopy 50 (data.drop 2) = window data 2 50 :=
    makeCopy_of_le 50 _ (by simp; omega)
  have h19 : (Fin.ofNat EventHeaderSize : Fin 256) = 19 := by rfl
  simp only [FormatDescriptionEvent.Decode]
  norm_num only
  simp only [e0, e2, e52, e57, u0, u52, i56, Run.ok_bind]
  simp only [ia, sl, mc, Run.ok_bind, h19,
    checksumVersionProductMariaDB_eq, BINLOG_CHECKSUM_ALG_UNDEF]

theorem leBytes_length (w n : Nat) : (leBytes w n).length = w := by
  induction w generalizing n with
  | zero => rfl
  | succ w ih => simp [leBytes, ih]

theorem leValue_leBytes (w n : Nat) (h : n < 256 ^ w) : leValue (leBytes w n) = n := by
  induction w generalizing n with
  | zero => simp at h; simp [leBytes, leValue, h]
  | succ w ih =>
    have h2 : n / 256 < 256 ^ w := by
      rw [Nat.div_lt_iff_lt_mul (by norm_num)]
      rw [pow_succ] at h
      exact h
    have hm : n % 256 < 256 := Nat.mod_lt _ (by norm_num)
    simp only [leBytes, leValue, ih _ h2, Fin.ofNat, Fin.val_mk]
    omega

theorem window_append_mid (pre mid rest : Bytes) :
    window (pre ++ mid ++ rest) pre.length mid.length = mid := by
  simp [window]

theorem window_zero_append (pre rest : Bytes) : window (pre ++ rest) 0 pre.length = pre := by
  simp [window]

theorem getElem?_append_cons {α : Type} (pre : List α) (a : α) (r : List α) :
    (pre ++ a :: r)[pre.length]? = some a := by
  rw [List.getElem?_append_right (Nat.le_refl _)]
  simp

theorem encode_window_version (v : Nat) (s : Bytes) (t : Nat) (L : Bytes) (a : Byte)
    (r : Bytes) : window (encodeFormatDescription v s t L a r) 0 2 = leBytes 2 v := by
  have h := window_zero_append (leBytes 2 v) (s ++ leBytes 4 t ++ [19] ++ L ++ [a] ++ r)
  rw [leBytes_length] at h
  have e : encodeFormatDescription v s t L a r
      = leBytes 2 v ++ (s ++ leBytes 4 t ++ [19] ++ L ++ [a] ++ r) := by
    simp [encodeFormatDescription]
  rw [e]
  exact h

theorem encode_window_server (v : Nat) (s : Bytes) (t : Nat) (L : Bytes) (a : Byte)
    (r : Bytes) (hs : s.length = 50) :
    window (encodeFormatDescription v s t L a r) 2 50 = s := by
  have h := window_append_mid (leBytes 2 v) s (leBytes 4 t ++ [19] ++ L ++ [a] ++ r)
  rw [leBytes_length, hs] at h
  have e : encodeFormatDescription v s t L a r
      = leBytes 2 v ++ s ++ (leBytes 4 t ++ [19] ++ L ++ [a] ++ r) := by
    simp [encodeFormatDescription]
  rw [e]
  exact h

theorem encode_window_timestamp (v : Nat) (s : Bytes) (t : Nat) (L : Bytes) (a : Byte)
    (r : Bytes) (hs : s.length = 50) :
    window (encodeFormatDescription v s t L a r) 52 4 = leBytes 4 t := by
  have h := window_append_mid (leBytes 2 v ++ s) (leBytes 4 t) ([19] ++ L ++ [a] ++ r)
  simp only [List.length_append, leBytes_length, hs] at h
  have e : encodeFormatDescription v s t L a r
      = leBytes 2 v ++ s ++ leBytes 4 t ++ ([19] ++ L ++ [a] ++ r) := by
    simp [encodeFormatDescription]
  rw [e]
  exact h

theorem encode_length (v : Nat) (s : Bytes) (t : Nat) (L : Bytes) (a : Byte)
    (r : Bytes) (hs : s.length = 50) (hr : r.length = 4) :
    (encodeFormatDescription v s t L a r).length = 62 + L.length := by
  simp only [encodeFormatDescription, List.length_append, leBytes_length, hs, hr,
    List.length_singleton]
  omega

theorem encode_window_lengths (v : Nat) (s : Bytes) (t : Nat) (L : Bytes) (a : Byte)
    (r : Bytes) (hs : s.length = 50) :
    window (encodeFormatDescription v s t L a r) 57 L.length = L := by
  have h := window_append_mid (leBytes 2 v ++ s ++ leBytes 4 t ++ [19]) L ([a] ++ r)
  simp only [List.length_append, leBytes_length, hs, List.length_singleton] at h
  have e : encodeFormatDescription v s t L a r
      = leBytes 2 v ++ s ++ leBytes 4 t ++ [19] ++ L ++ ([a] ++ r) := by
    simp [encodeFormatDescription]
  rw [e]
  exact h

theorem encode_checksum (v : Nat) (s : Bytes) (t : Nat) (L : Bytes) (a : Byte)
    (r : Bytes) (hs : s.length = 50) :
    (encodeFormatDescription v s t L a r)[57 + L.length]? = some a := by
  have e : encodeFormatDescription v s t L a r
      = (leBytes 2 v ++ s ++ leBytes 4 t ++ [19] ++ L) ++ (a :: r) := by
    simp [encodeFormatDescription]
  have hpre : (leBytes 2 v ++ s ++ leBytes 4 t ++ [19] ++ L).length = 57 + L.length := by
    simp only [List.length_append, leBytes_length, hs, List.length_singleton]
  rw [e, ← hpre]
  exact getElem?_append_cons _ a r

/-- C3: on a format description body of at least 62 bytes whose byte 56 is 19, the
decoder succeeds with Version = LE16(data[0..1]), ServerVersion = data[2..51]
and CreateTimestamp = LE32(data[52..55]); when the version product of the
server version is at least 328448 (the product of 5.3.0) the checksum algorithm
is the fifth byte from the end and the header-length table is data[57 .. len-5),
otherwise the checksum algorithm is 255 and the table is data[57 .. len).
Hence, when the body is LE16(v) ++ s ++ LE32(t) ++ [19] ++ L ++ [a] ++ r with
50 bytes of s, 4 bytes of r and a product of s at least the threshold, decoding
recovers v, s, t, a and L. -/
theorem FormatDescriptionEvent.Decode_boundary (N : Nat → Bool) (self : FormatDescriptionEvent)
    (data : Bytes) (hlen : 62 ≤ data.length) (h19 : data[56]? = some 19) :
    checksumVersionProductMariaDB = 328448 ∧
    ∃ fd, FormatDescriptionEvent.Decode N self data = .ok (fd, none) ∧
      fd.Version = leValue (window data 0 2) ∧
      fd.ServerVersion = window data 2 50 ∧
      fd.CreateTimestamp = leValue (window data 52 4) ∧
      fd.EventHeaderLength = 19 ∧
      (328448 ≤ calcVersionProduct N (window data 2 50) →
        data[data.length - 5]? = some fd.ChecksumAlgorithm ∧
        fd.EventTypeHeaderLengths = window data 57 (data.length - 5 - 57)) ∧
      (calcVersionProduct N (window data 2 50) < 328448 →
        fd.ChecksumAlgorithm = 255 ∧ fd.EventTypeHeaderLengths = data.drop 57) ∧
      (∀ (v : Nat) (s : Bytes) (t : Nat) (L : Bytes) (a : Byte) (r : Bytes),
        data = encodeFormatDescription v s t L a r → v < 2 ^ 16 → s.length = 50 → t < 2 ^ 32 →
        r.length = 4 → 328448 ≤ calcVersionProduct N s →
        fd = { Version := v, ServerVersion := s, CreateTimestamp := t, EventHeaderLength := 19,
               EventTypeHeaderLengths := L, ChecksumAlgorithm := a }) := by
  refine ⟨checksumVersionProductMariaDB_eq, ?_⟩
  obtain ⟨a, ha⟩ := get?_isSome_of_lt data (data.length - 5) (by omega)
  have hd := FormatDescriptionEvent.Decode_format_long N self data 19 a hlen h19 ha
  simp only [ne_eq, not_true_eq_false, if_false] at hd
  have h62 : data.length - 5 - 57 = data.length - 62 := by omega
  by_cases hP : 328448 ≤ calcVersionProduct N (window data 2 50)
  · rw [if_pos hP] at hd
    refine ⟨_, hd, rfl, rfl, rfl, rfl, fun _ => ⟨ha, by rw [h62]⟩, fun hlt => absurd hP (by omega), ?_⟩
    intro v s t L a2 r hdata hv hs ht hr hPs
    subst hdata
    have hlenL := encode_length v s t L a2 r hs hr
    have wa : (encodeFormatDescription v s t L a2 r)[
        (encodeFormatDescription v s t L a2 r).length - 5]? = some a2 := by
      have : (encodeFormatDescription v s t L a2 r).length - 5 = 57 + L.length := by omega
      rw [this]
      exact encode_checksum v s t L a2 r hs
    have haa : a = a2 := by
      rw [ha] at wa
      exact Option.some.inj wa
    have h62b : (encodeFormatDescription v s t L a2 r).length - 62 = L.length := by omega
    rw [encode_window_version, leValue_leBytes 2 v (by norm_num; exact hv),
      encode_window_server v s t L a2 r hs, encode_window_timestamp v s t L a2 r hs,
      leValue_leBytes 4 t (by norm_num; exact ht), h62b,
      encode_window_lengths v s t L a2 r hs, haa]
  · rw [if_neg hP] at hd
    refine ⟨_, hd, rfl, rfl, rfl, rfl, fun h => absurd h hP, fun _ => ⟨rfl, rfl⟩, ?_⟩
    intro v s t L a2 r hdata hv hs ht hr hPs
    subst hdata
    rw [encode_window_server v s t L a2 r hs] at hP
    exact absurd hPs hP

/-- C4: on a format description body of at least 62 bytes the decoder terminates
without panic and returns an error exactly when byte 56, the declared header
length, is different from 19. -/
theorem FormatDescriptionEvent.Decode_format_error_iff (N : Nat → Bool)
    (self : FormatDescriptionEvent) (data : Bytes) (hlen : 62 ≤ data.length) :
    ∃ fd err, FormatDescriptionEvent.Decode N self data = .ok (fd, err) ∧
      (err ≠ none ↔ data[56]? ≠ some 19) := by
  obtain ⟨a, ha⟩ := get?_isSome_of_lt data (data.length - 5) (by omega)
  obtain ⟨b, hb⟩ := get?_isSome_of_lt data 56 (by omega)
  have hd := FormatDescriptionEvent.Decode_format_long N self data b a hlen hb ha
  by_cases h19 : b = 19
  · subst h19
    simp only [ne_eq, not_true_eq_false, if_false] at hd
    by_cases hP : 328448 ≤ calcVersionProduct N (window data 2 50)
    · rw [if_pos hP] at hd
      exact ⟨_, _, hd, by simp [hb]⟩
    · rw [if_neg hP] at hd
      exact ⟨_, _, hd, by simp [hb]⟩
  · rw [if_pos h19] at hd
    exact ⟨_, _, hd, by simp [hb, h19]⟩

/-! ## The dispatcher (C7 to C10) -/

theorem stripChecksum_ok (p : BinlogParser) (data : Bytes)
    (hbody : ∀ fd, p.format = some fd → fd.ChecksumAlgorithm = BINLOG_CHECKSUM_ALG_CRC32 →
      4 ≤ data.length) :
    ∃ d, p.stripChecksum data = .ok d := by
  unfold BinlogParser.stripChecksum
  cases hf : p.format with
  | none => exact ⟨data, rfl⟩
  | some fd =>
    by_cases hc : fd.ChecksumAlgorithm = BINLOG_CHECKSUM_ALG_CRC32
    · have h4 := hbody fd hf hc
      simp only [hc, if_true]
      exact ⟨_, slice_ok data 0 _ (by omega) (by omega) (by omega)⟩
    · simp only [hc, if_false]
      exact ⟨data, rfl⟩

theorem rowsCodes_not_head (K : EventTypeCodes) (hK : K.Distinct) (c : EventType)
    (hc : c ∈ K.rowsCodes) :
    c ≠ K.FORMAT_DESCRIPTION_EVENT ∧ c ≠ K.ROTATE_EVENT ∧ c ≠ K.QUERY_EVENT ∧
    c ≠ K.XID_EVENT ∧ c ≠ K.TABLE_MAP_EVENT := by
  unfold EventTypeCodes.Distinct EventTypeCodes.known at hK
  rw [List.append_assoc, List.nodup_append] at hK
  have hd := hK.2.2
  have hc2 : c ∈ K.rowsCodes ++ [K.ROWS_QUERY_EVENT, K.BEGIN_LOAD_QUERY_EVENT,
      K.EXECUTE_LOAD_QUERY_EVENT, K.MARIADB_ANNOTATE_ROWS_EVENT,
      K.MARIADB_BINLOG_CHECKPOINT_EVENT, K.MARIADB_GTID_LIST_EVENT, K.MARIADB_GTID_EVENT] :=
    List.mem_append_left _ hc
  have hn : c ∉ [K.FORMAT_DESCRIPTION_EVENT, K.ROTATE_EVENT, K.QUERY_EVENT, K.XID_EVENT,
      K.TABLE_MAP_EVENT] := fun hm => hd hm hc2
  simp only [List.mem_cons, List.mem_singleton, List.not_mem_nil, or_false, not_or] at hn
  exact hn

theorem tableMap_not_head (K : EventTypeCodes) (hK : K.Distinct) :
    K.TABLE_MAP_EVENT ≠ K.FORMAT_DESCRIPTION_EVENT ∧ K.TABLE_MAP_EVENT ≠ K.ROTATE_EVENT ∧
    K.TABLE_MAP_EVENT ≠ K.QUERY_EVENT ∧ K.TABLE_MAP_EVENT ≠ K.XID_EVENT := by
  unfold EventTypeCodes.Distinct EventTypeCodes.known at hK
  rw [List.append_assoc, List.nodup_append] at hK
  have h5 := hK.1
  simp only [List.nodup_cons, List.mem_cons, List.mem_singleton, List.not_mem_nil, or_false,
    not_or] at h5
  obtain ⟨⟨_, _, _, h1⟩, ⟨_, _, h2⟩, ⟨_, h3⟩, h4, _⟩ := h5
  exact ⟨Ne.symm h1, Ne.symm h2, Ne.symm h3, Ne.symm h4⟩

/-- The rows-event constructor when the descriptor is present and the table has the
entry looked up: it returns, and the result is determined by the comparisons of
its `switch`. -/
theorem newRowsEvent_ok (K : EventTypeCodes) (p : BinlogParser) (fd : FormatDescriptionEvent)
    (h : EventHeader) (entry : Byte) (hfmt : p.format = some fd)
    (hentry : fd.EventTypeHeaderLengths[(h.EventType - 1 : EventType).val]? = some entry) :
    ∃ e, p.newRowsEvent K h = .ok e ∧ e.tableIDSize = (if entry = 6 then 4 else 6) ∧
      e.tables = p.tables ∧
      e.Version =
        (if h.EventType = K.WRITE_ROWS_EVENTv0 then 0
         else if h.EventType = K.UPDATE_ROWS_EVENTv0 then 0
         else if h.EventType = K.DELETE_ROWS_EVENTv0 then 0
         else if h.EventType = K.WRITE_ROWS_EVENTv1 then 1
         else if h.EventType = K.DELETE_ROWS_EVENTv1 then 1
         else if h.EventType = K.UPDATE_ROWS_EVENTv1 then 1
         else if h.EventType = K.WRITE_ROWS_EVENTv2 then 2
         else if h.EventType = K.UPDATE_ROWS_EVENTv2 then 2
         else if h.EventType = K.DELETE_ROWS_EVENTv2 then 2
         else 0) ∧
      e.needBitmap2 =
        (if h.EventType = K.WRITE_ROWS_EVENTv0 then false
         else if h.EventType = K.UPDATE_ROWS_EVENTv0 then false
         else if h.EventType = K.DELETE_ROWS_EVENTv0 then false
         else if h.EventType = K.WRITE_ROWS_EVENTv1 then false
         else if h.EventType = K.DELETE_ROWS_EVENTv1 then false
         else if h.EventType = K.UPDATE_ROWS_EVENTv1 then true
         else if h.EventType = K.WRITE_ROWS_EVENTv2 then false
         else if h.EventType = K.UPDATE_ROWS_EVENTv2 then true
         else false) := by
  have hi : index fd.EventTypeHeaderLengths (((h.EventType - 1 : EventType).val : Nat) : Int)
      = .ok entry := index_nat _ _ entry hentry
  simp only [BinlogParser.newRowsEvent, hfmt, Run.ok_bind, hi]
  refine ⟨_, rfl, ?_, ?_, ?_, ?_⟩
  · simp only [apply_ite RowsEvent.tableIDSize, ite_self]
  · simp only [apply_ite RowsEvent.tables, ite_self]
  · simp only [apply_ite RowsEvent.Version]
  · simp only [apply_ite RowsEvent.needBitmap2, ite_self]

theorem parseEvent_congr_data (K : EventTypeCodes) (p : BinlogParser) (h : EventHeader)
    (d1 d2 b1 b2 : Bytes) (hne : h.EventType ≠ K.FORMAT_DESCRIPTION_EVENT)
    (hs1 : p.stripChecksum d1 = .ok b1) (hs2 : p.stripChecksum d2 = .ok b2) :
    p.parseEvent K h d1 = p.parseEvent K h d2 := by
  unfold BinlogParser.parseEvent
  rw [if_neg hne, if_neg hne]
  simp only [hs1, hs2, Run.ok_bind]

theorem parseEvent_ok_of_no_lookup (K : EventTypeCodes) (p : BinlogParser) (h : EventHeader)
    (data d : Bytes) (hs : p.stripChecksum data = .ok d)
    (hne : h.EventType ≠ K.FORMAT_DESCRIPTION_EVENT) (hTM : h.EventType ≠ K.TABLE_MAP_EVENT)
    (hrows : h.EventType ∉ K.rowsCodes) :
    ∃ e, p.parseEvent K h data = .ok (p, some e, none) := by
  unfold BinlogParser.parseEvent
  rw [if_neg hne]
  simp only [hs, Run.ok_bind, if_neg hTM, if_neg hrows]
  by_cases hx : h.EventType = K.ROTATE_EVENT
  · rw [if_pos hx]
    exact ⟨_, rfl⟩
  rw [if_neg hx]
  clear hx
  by_cases hx : h.EventType = K.QUERY_EVENT
  · rw [if_pos hx]
    exact ⟨_, rfl⟩
  rw [if_neg hx]
  clear hx
  by_cases hx : h.EventType = K.XID_EVENT
  · rw [if_pos hx]
    exact ⟨_, rfl⟩
  rw [if_neg hx]
  clear hx
  by_cases hx : h.EventType = K.ROWS_QUERY_EVENT
  · rw [if_pos hx]
    exact ⟨_, rfl⟩
  rw [if_neg hx]
  clear hx
  by_cases hx : h.EventType = K.BEGIN_LOAD_QUERY_EVENT
  · rw [if_pos hx]
    exact ⟨_, rfl⟩
  rw [if_neg hx]
  clear hx
  by_cases hx : h.EventType = K.EXECUTE_LOAD_QUERY_EVENT
  · rw [if_pos hx]
    exact ⟨_, rfl⟩
  rw [if_neg hx]
  clear hx
  by_cases hx : h.EventType = K.MARIADB_ANNOTATE_ROWS_EVENT
  · rw [if_pos hx]
    exact ⟨_, rfl⟩
  rw [if_neg hx]
  clear hx
  by_cases hx : h.EventType = K.MARIADB_BINLOG_CHECKPOINT_EVENT
  · rw [if_pos hx]
    exact ⟨_, rfl⟩
  rw [if_neg hx]
  clear hx
  by_cases hx : h.EventType = K.MARIADB_GTID_LIST_EVENT
  · rw [if_pos hx]
    exact ⟨_, rfl⟩
  rw [if_neg hx]
  clear hx
  by_cases hx : h.EventType = K.MARIADB_GTID_EVENT
  · rw [if_pos hx]
    exact ⟨_, rfl⟩
  rw [if_neg hx]
  clear hx
  exact ⟨_, rfl⟩

theorem stripChecksum_crc32_append (fd : FormatDescriptionEvent) (tables : TableMap)
    (b c : Bytes) (hc : c.length = 4) :
    (parserWithChecksum fd tables BINLOG_CHECKSUM_ALG_CRC32).stripChecksum (b ++ c) = .ok b := by
  have hl : (((b ++ c).length : Nat) : Int) - 4 = ((b.length : Nat) : Int) := by
    simp only [List.length_append, hc]
    omega
  simp only [BinlogParser.stripChecksum, parserWithChecksum, if_true, hl]
  rw [slice_ok (b ++ c) 0 _ (by omega) (by omega) (by simp)]
  simp

theorem stripChecksum_off (fd : FormatDescriptionEvent) (tables : TableMap) (b : Bytes) :
    (parserWithChecksum fd tables BINLOG_CHECKSUM_ALG_OFF).stripChecksum b = .ok b := by
  simp [BinlogParser.stripChecksum, parserWithChecksum, BINLOG_CHECKSUM_ALG_OFF,
    BINLOG_CHECKSUM_ALG_CRC32]

/-- The parser `parseEvent` leaves behind is the one it was called on, or that one
with the zero-valued descriptor of line 100. -/
theorem parseEvent_state (K : EventTypeCodes) (p q : BinlogParser) (h : EventHeader)
    (data : Bytes) (e : Option Event) (err : Option Err)
    (hrun : p.parseEvent K h data = .ok (q, e, err)) :
    q = p ∨ q = { p with format := some {} } := by
  unfold BinlogParser.parseEvent at hrun
  by_cases hfd : h.EventType = K.FORMAT_DESCRIPTION_EVENT
  · rw [if_pos hfd] at hrun
    simp only [Run.ok.injEq, Prod.mk.injEq] at hrun
    exact Or.inr hrun.1.symm
  rw [if_neg hfd] at hrun
  left
  cases hs : p.stripChecksum data with
  | fault x =>
    rw [hs] at hrun
    simp at hrun
  | ok d =>
    rw [hs] at hrun
    simp only [Run.ok_bind] at hrun
    by_cases hx : h.EventType = K.ROTATE_EVENT
    · rw [if_pos hx] at hrun
      simp only [Run.ok.injEq, Prod.mk.injEq] at hrun
      exact hrun.1.symm
    rw [if_neg hx] at hrun
    clear hx
    by_cases hx : h.EventType = K.QUERY_EVENT
    · rw [if_pos hx] at hrun
      simp only [Run.ok.injEq, Prod.mk.injEq] at hrun
      exact hrun.1.symm
    rw [if_neg hx] at hrun
    clear hx
    by_cases hx : h.EventType = K.XID_EVENT
    · rw [if_pos hx] at hrun
      simp only [Run.ok.injEq, Prod.mk.injEq] at hrun
      exact hrun.1.symm
    rw [if_neg hx] at hrun
    clear hx
    by_cases hx : h.EventType = K.TABLE_MAP_EVENT
    · rw [if_pos hx] at hrun
      cases hf : p.format with
      | none =>
        rw [hf] at hrun
        simp at hrun
      | some fd =>
        rw [hf] at hrun
        simp only [Run.ok_bind] at hrun
        cases hi : index fd.EventTypeHeaderLengths
            ((K.TABLE_MAP_EVENT - 1 : EventType).val : Int) with
        | fault x =>
          rw [hi] at hrun
          simp at hrun
        | ok entry =>
          rw [hi] at hrun
          simp only [Run.ok_bind, Run.ok.injEq, Prod.mk.injEq] at hrun
          exact hrun.1.symm
    rw [if_neg hx] at hrun
    clear hx
    by_cases hx : h.EventType ∈ K.rowsCodes
    · rw [if_pos hx] at hrun
      cases hn : p.newRowsEvent K h with
      | fault x =>
        rw [hn] at hrun
        simp at hrun
      | ok ev =>
        rw [hn] at hrun
        simp only [Run.ok_bind, Run.ok.injEq, Prod.mk.injEq] at hrun
        exact hrun.1.symm
    rw [if_neg hx] at hrun
    clear hx
    by_cases hx : h.EventType = K.ROWS_QUERY_EVENT
    · rw [if_pos hx] at hrun
      simp only [Run.ok.injEq, Prod.mk.injEq] at hrun
      exact hrun.1.symm
    rw [if_neg hx] at hrun
    clear hx
    by_cases hx : h.EventType = K.BEGIN_LOAD_QUERY_EVENT
    · rw [if_pos hx] at hrun
      simp only [Run.ok.injEq, Prod.mk.injEq] at hrun
      exact hrun.1.symm
    rw [if_neg hx] at hrun
    clear hx
    by_cases hx : h.EventType = K.EXECUTE_LOAD_QUERY_EVENT
    · rw [if_pos hx] at hrun
      simp only [Run.ok.injEq, Prod.mk.injEq] at hrun
      exact hrun.1.symm
    rw [if_neg hx] at hrun
    clear hx
    by_cases hx : h.EventType = K.MARIADB_ANNOTATE_ROWS_EVENT
    · rw [if_pos hx] at hrun
      simp only [Run.ok.injEq, Prod.mk.injEq] at hrun
      exact hrun.1.symm
    rw [if_neg hx] at hrun
    clear hx
    by_cases hx : h.EventType = K.MARIADB_BINLOG_CHECKPOINT_EVENT
    · rw [if_pos hx] at hrun
      simp only [Run.ok.injEq, Prod.mk.injEq] at hrun
      exact hrun.1.symm
    rw [if_neg hx] at hrun
    clear hx
    by_cases hx : h.EventType = K.MARIADB_GTID_LIST_EVENT
    · rw [if_pos hx] at hrun
      simp only [Run.ok.injEq, Prod.mk.injEq] at hrun
      exact hrun.1.symm
    rw [if_neg hx] at hrun
    clear hx
    by_cases hx : h.EventType = K.MARIADB_GTID_EVENT
    · rw [if_pos hx] at hrun
      simp only [Run.ok.injEq, Prod.mk.injEq] at hrun
      exact hrun.1.symm
    rw [if_neg hx] at hrun
    simp only [Run.ok.injEq, Prod.mk.injEq] at hrun
    exact hrun.1.symm

/-- In every state a run reaches the format descriptor is nil or the zero value that
line 100 assigns, and the table-map cache is empty: no statement of the package
decodes into the descriptor or adds an entry to the cache. -/
theorem Reachable_format (K : EventTypeCodes) (p : BinlogParser) (hr : Reachable K p) :
    (p.format = none ∨ p.format = some {}) ∧ p.tables = [] := by
  induction hr with
  | new => exact ⟨Or.inl rfl, rfl⟩
  | parse p _ ih => exact ⟨ih.1, rfl⟩
  | event p q h data e err _ hrun ih =>
    rcases parseEvent_state K p q h data e err hrun with hq | hq
    · rw [hq]
      exact ih
    · rw [hq]
      exact ⟨Or.inr rfl, ih.2⟩

/-- No state a run reaches has the CRC32 checksum algorithm. -/
theorem Reachable_noChecksumStrip (K : EventTypeCodes) (p : BinlogParser)
    (hr : Reachable K p) : NoChecksumStrip p := by
  intro fd hfd
  rcases (Reachable_format K p hr).1 with hf | hf
  · rw [hf] at hfd
    cases hfd
  · rw [hf] at hfd
    simp only [Option.some.injEq] at hfd
    subst hfd
    decide

/-- Without the CRC32 algorithm the checksum step of lines 102 to 104 leaves the body
as it is. -/
theorem stripChecksum_of_noChecksumStrip (p : BinlogParser) (hp : NoChecksumStrip p)
    (data : Bytes) : p.stripChecksum data = .ok data := by
  unfold BinlogParser.stripChecksum
  cases hf : p.format with
  | none => rfl
  | some fd =>
    simp only [if_neg (hp fd hf)]

/-- The result of `parseEvent` does not depend on the body, as long as the checksum
step does not panic: the stripped body is assigned to the local `data` and not
read again, and no decoder is called. -/
theorem parseEvent_body_irrelevant (K : EventTypeCodes) (p : BinlogParser) (h : EventHeader)
    (d1 d2 b1 b2 : Bytes) (hs1 : p.stripChecksum d1 = .ok b1)
    (hs2 : p.stripChecksum d2 = .ok b2) :
    p.parseEvent K h d1 = p.parseEvent K h d2 := by
  by_cases hfd : h.EventType = K.FORMAT_DESCRIPTION_EVENT
  · unfold BinlogParser.parseEvent
    rw [if_pos hfd, if_pos hfd]
  · exact parseEvent_congr_data K p h d1 d2 b1 b2 hfd hs1 hs2

/-- The `switch` of `newRowsEvent`, on a state in which the lookup before it returns
(the descriptor is present and its header-length table has an entry at index
type code - 1): for each of the nine row-mutation type codes the rows event has
Version 0 for the v0 codes, 1 for the v1 codes and 2 for the v2 codes,
needBitmap2 true exactly for UPDATE_ROWS_EVENTv1 and UPDATE_ROWS_EVENTv2, and
the parser's table cache. -/
theorem BinlogParser.newRowsEvent_version (K : EventTypeCodes) (hK : K.rowsCodes.Nodup)
    (p : BinlogParser) (fd : FormatDescriptionEvent) (h : EventHeader) (entry : Byte)
    (hfmt : p.format = some fd)
    (hentry : fd.EventTypeHeaderLengths[(h.EventType - 1 : EventType).val]? = some entry)
    (hrow : h.EventType ∈ K.rowsCodes) :
    ∃ e, p.newRowsEvent K h = .ok e ∧
      (e.Version = 0 ↔ h.EventType ∈
        [K.WRITE_ROWS_EVENTv0, K.UPDATE_ROWS_EVENTv0, K.DELETE_ROWS_EVENTv0]) ∧
      (e.Version = 1 ↔ h.EventType ∈
        [K.WRITE_ROWS_EVENTv1, K.UPDATE_ROWS_EVENTv1, K.DELETE_ROWS_EVENTv1]) ∧
      (e.Version = 2 ↔ h.EventType ∈
        [K.WRITE_ROWS_EVENTv2, K.UPDATE_ROWS_EVENTv2, K.DELETE_ROWS_EVENTv2]) ∧
      (e.needBitmap2 = true ↔
        h.EventType = K.UPDATE_ROWS_EVENTv1 ∨ h.EventType = K.UPDATE_ROWS_EVENTv2) ∧
      e.tables = p.tables := by
  obtain ⟨e, he, _, htab, hver, hbit⟩ := newRowsEvent_ok K p fd h entry hfmt hentry
  refine ⟨e, he, ?_, ?_, ?_, ?_, htab⟩
  all_goals
    have hR := List.nodup_reverse.mpr hK
    simp only [EventTypeCodes.rowsCodes, List.nodup_cons, List.mem_cons, List.mem_singleton,
      List.not_mem_nil, or_false, not_or, List.nodup_nil, and_true, List.reverse_cons,
      List.reverse_nil, List.nil_append, List.cons_append, List.singleton_append] at hK hR hrow
    first | rw [hver] | rw [hbit]
    rcases hrow with hc | hc | hc | hc | hc | hc | hc | hc | hc <;>
      simp [hc, hK, hR]

/-- The `switch` of `newRowsEvent` on the sample parser and UPDATE_ROWS_EVENTv2. -/
theorem newRowsEvent_version_sample :
    ∃ e, sampleParserOff.newRowsEvent protocolCodes { EventType := 31 } = .ok e ∧
      e.Version = 2 ∧ e.needBitmap2 = true ∧ e.tables = sampleParserOff.tables := by
  obtain ⟨e, he, _, _, h2, hb, ht⟩ :=
    BinlogParser.newRowsEvent_version protocolCodes (by decide) sampleParserOff _
      { EventType := 31 } 6 rfl rfl (by decide)
  exact ⟨e, he, h2.mpr (by decide), hb.mpr (by decide), ht⟩

/-- For an event-type code that is none of the codes `parseEvent` knows, `parseEvent`
returns a generic event and a nil error and leaves the parser unchanged
whenever the checksum step does not panic, that is, unless the checksum
algorithm is CRC32 and the body is shorter than 4 bytes. -/
theorem parseEvent_unknown_of_strip (K : EventTypeCodes) (p : BinlogParser)
    (h : EventHeader) (data : Bytes) (hunk : h.EventType ∉ K.known)
    (hbody : ∀ fd, p.format = some fd → fd.ChecksumAlgorithm = BINLOG_CHECKSUM_ALG_CRC32 →
      4 ≤ data.length) :
    p.parseEvent K h data = .ok (p, some (.generic {}), none) := by
  obtain ⟨d, hd⟩ := stripChecksum_ok p data hbody
  have hrows : h.EventType ∉ K.rowsCodes := by
    intro hm
    apply hunk
    unfold EventTypeCodes.known
    exact List.mem_append_left _ (List.mem_append_right _ hm)
  simp only [EventTypeCodes.known, EventTypeCodes.rowsCodes, List.mem_append, List.mem_cons,
    List.mem_singleton, List.not_mem_nil, or_false, not_or] at hunk
  obtain ⟨⟨⟨h1, h2, h3, h4, h5⟩, _⟩, h6, h7, h8, h9, h10, h11, h12⟩ := hunk
  simp only [BinlogParser.parseEvent, if_neg h1, if_neg h2, if_neg h3, if_neg h4, if_neg h5,
    if_neg h6, if_neg h7, if_neg h8, if_neg h9, if_neg h10, if_neg h11, if_neg h12, hd,
    Run.ok_bind, if_neg hrows]

/-- C7: for every parser state that has a format descriptor with header-length
table T, and every event body (a body that carries its 4 checksum bytes when
the descriptor's checksum algorithm is CRC32): if T has an entry at index
TABLE_MAP_EVENT - 1, `parseEvent` on a TABLE_MAP event returns a table-map
event with tableIDSize 4 when that entry is 6 and 6 otherwise; and for a
row-mutation type code c, if T has an entry at index c - 1, `parseEvent`
returns a rows event with tableIDSize 4 when that entry is 6 and 6 otherwise.
The parser state is unchanged and the error is nil.  This is a property of
the function on the states the claim names: `Reachable_format` shows that a
run from `NewBinlogParser` never holds such a table. -/
theorem BinlogParser.parseEvent_tableIDSize (K : EventTypeCodes) (hK : K.Distinct)
    (p : BinlogParser) (fd : FormatDescriptionEvent) (h : EventHeader) (data : Bytes)
    (hfmt : p.format = some fd)
    (hbody : fd.ChecksumAlgorithm = BINLOG_CHECKSUM_ALG_CRC32 → 4 ≤ data.length) :
    (h.EventType = K.TABLE_MAP_EVENT →
      ∀ entry, fd.EventTypeHeaderLengths[(K.TABLE_MAP_EVENT - 1 : EventType).val]? = some entry →
        ∃ te, p.parseEvent K h data = .ok (p, some (.tableMap te), none) ∧
          te.tableIDSize = if entry = 6 then 4 else 6) ∧
    (h.EventType ∈ K.rowsCodes →
      ∀ entry, fd.EventTypeHeaderLengths[(h.EventType - 1 : EventType).val]? = some entry →
        ∃ e, p.parseEvent K h data = .ok (p, some (.rows e), none) ∧
          e.tableIDSize = if entry = 6 then 4 else 6) := by
  obtain ⟨d, hd⟩ := stripChecksum_ok p data (by
    intro fd2 hf2 hc
    rw [hfmt] at hf2
    cases hf2
    exact hbody hc)
  constructor
  · intro hty entry hentry
    obtain ⟨h1, h2, h3, h4⟩ := tableMap_not_head K hK
    have hi : index fd.EventTypeHeaderLengths
        (((K.TABLE_MAP_EVENT - 1 : EventType).val : Nat) : Int) = .ok entry :=
      index_nat _ _ entry hentry
    refine ⟨{ tableIDSize := if entry = 6 then 4 else 6 }, ?_, rfl⟩
    simp only [BinlogParser.parseEvent, hty, if_neg h1, if_neg h2, if_neg h3, if_neg h4, hd,
      Run.ok_bind, if_true, hfmt, hi]
  · intro hrow entry hentry
    obtain ⟨h1, h2, h3, h4, h5⟩ := rowsCodes_not_head K hK h.EventType hrow
    obtain ⟨e, he, hsz, _⟩ := newRowsEvent_ok K p fd h entry hfmt hentry
    refine ⟨e, ?_, hsz⟩
    simp only [BinlogParser.parseEvent, if_neg h1, if_neg h2, if_neg h3, if_neg h4, if_neg h5, hd,
      Run.ok_bind, hrow, if_true, he]

/-- C7 (witness): the sample parser with checksum off on the rows sample body, for
TABLE_MAP (entry 8, width 6) and UPDATE_ROWS_EVENTv2 (entry 6, width 4). -/
theorem BinlogParser.parseEvent_tableIDSize_witness :
    (∃ te, sampleParserOff.parseEvent protocolCodes { EventType := 19 } sampleRowsBody
        = .ok (sampleParserOff, some (.tableMap te), none) ∧ te.tableIDSize = 6) ∧
    (∃ e, sampleParserOff.parseEvent protocolCodes { EventType := 31 } sampleRowsBody
        = .ok (sampleParserOff, some (.rows e), none) ∧ e.tableIDSize = 4) :=
  ⟨(BinlogParser.parseEvent_tableIDSize protocolCodes (by decide) sampleParserOff _
      { EventType := 19 } sampleRowsBody rfl (fun _ => by decide)).1 rfl 8 rfl,
   (BinlogParser.parseEvent_tableIDSize protocolCodes (by decide) sampleParserOff _
      { EventType := 31 } sampleRowsBody rfl (fun _ => by decide)).2 (by decide) 6 rfl⟩

/-- C8 (the code diverges): in every state a run reaches, and for every header,
`newRowsEvent` returns no rows event.  The descriptor is nil (as in the state
`NewBinlogParser` returns), and `p.format.EventTypeHeaderLengths` at line 160
dereferences it without the nil test of line 102; or it is the zero value
that line 100 assigns, whose header-length table is empty, and the index
expression `[h.EventType-1]` is out of range.  Either way the call panics before
the `switch` on the type code, so no Version, needBitmap2 or table cache is
produced. -/
theorem BinlogParser.newRowsEvent_lookup_panics (K : EventTypeCodes) (p : BinlogParser)
    (h : EventHeader) (hr : Reachable K p) :
    (p.format = none ∧ p.newRowsEvent K h = .fault .nilDereference) ∨
    (p.format = some {} ∧ p.newRowsEvent K h = .fault .indexOutOfRange) := by
  rcases (Reachable_format K p hr).1 with hf | hf
  · refine Or.inl ⟨hf, ?_⟩
    simp only [BinlogParser.newRowsEvent, hf, Run.fault_bind]
  · refine Or.inr ⟨hf, ?_⟩
    have hi : index ({} : FormatDescriptionEvent).EventTypeHeaderLengths
        (((h.EventType - 1 : EventType).val : Nat) : Int) = .fault .indexOutOfRange := by
      simp [index]
    simp only [BinlogParser.newRowsEvent, hf, Run.ok_bind, hi, Run.fault_bind]

/-- C8 (witness): WRITE_ROWS_EVENTv2 on the state `NewBinlogParser` returns (nil
dereference) and on the state after a FORMAT_DESCRIPTION event (index out of
range). -/
theorem BinlogParser.newRowsEvent_lookup_panics_witness :
    Reachable protocolCodes NewBinlogParser ∧
    NewBinlogParser.newRowsEvent protocolCodes
        { EventType := protocolCodes.WRITE_ROWS_EVENTv2 } = .fault .nilDereference ∧
    Reachable protocolCodes sampleParserAfterFormat ∧
    sampleParserAfterFormat.newRowsEvent protocolCodes
        { EventType := protocolCodes.WRITE_ROWS_EVENTv2 } = .fault .indexOutOfRange :=
  have hnew : Reachable protocolCodes NewBinlogParser := Reachable.new
  have hfmt : Reachable protocolCodes sampleParserAfterFormat :=
    Reachable.event NewBinlogParser sampleParserAfterFormat
      { EventType := protocolCodes.FORMAT_DESCRIPTION_EVENT } sampleFormatBody none none hnew rfl
  ⟨hnew,
   (BinlogParser.newRowsEvent_lookup_panics protocolCodes NewBinlogParser
      { EventType := protocolCodes.WRITE_ROWS_EVENTv2 } hnew).elim
      (fun h => h.2) (fun h => absurd h.1 (by decide)),
   hfmt,
   (BinlogParser.newRowsEvent_lookup_panics protocolCodes sampleParserAfterFormat
      { EventType := protocolCodes.WRITE_ROWS_EVENTv2 } hfmt).elim
      (fun h => absurd h.1 (by decide)) (fun h => h.2)⟩

/-- C9: for every event-type code that is none of the codes `parseEvent` knows,
`parseEvent` returns a generic event and a nil error and leaves the parser
(format descriptor and table-map cache) unchanged: in every state a run
reaches, for every body; in every state that has no format descriptor or
whose checksum algorithm is not CRC32, for every body; and in every state at
all, for every body of at least 4 bytes. -/
theorem BinlogParser.parseEvent_unknown_generic (K : EventTypeCodes) (p : BinlogParser)
    (h : EventHeader) (hunk : h.EventType ∉ K.known) :
    (Reachable K p → ∀ data, p.parseEvent K h data = .ok (p, some (.generic {}), none)) ∧
    (NoChecksumStrip p → ∀ data, p.parseEvent K h data = .ok (p, some (.generic {}), none)) ∧
    (∀ data, 4 ≤ data.length → p.parseEvent K h data = .ok (p, some (.generic {}), none)) := by
  have hno : NoChecksumStrip p → ∀ data,
      p.parseEvent K h data = .ok (p, some (.generic {}), none) := fun hp data =>
    parseEvent_unknown_of_strip K p h data hunk (fun fd hf hc => absurd hc (hp fd hf))
  exact ⟨fun hr => hno (Reachable_noChecksumStrip K p hr), hno,
    fun data h4 => parseEvent_unknown_of_strip K p h data hunk (fun _ _ _ => h4)⟩

/-- C9 (witness): code 3 with an empty body on the state `NewBinlogParser` returns and
on the state after a FORMAT_DESCRIPTION event, with a one-byte body on the
sample parser with checksum off, and with a 5-byte body on the CRC32 sample
parser. -/
theorem BinlogParser.parseEvent_unknown_generic_witness :
    (3 : EventType) ∉ protocolCodes.known ∧
    NewBinlogParser.parseEvent protocolCodes { EventType := 3 } []
      = .ok (NewBinlogParser, some (.generic {}), none) ∧
    sampleParserAfterFormat.parseEvent protocolCodes { EventType := 3 } []
      = .ok (sampleParserAfterFormat, some (.generic {}), none) ∧
    sampleParserOff.parseEvent protocolCodes { EventType := 3 } [7]
      = .ok (sampleParserOff, some (.generic {}), none) ∧
    sampleParserCRC32.parseEvent protocolCodes { EventType := 3 } [9, 1, 2, 3, 4]
      = .ok (sampleParserCRC32, some (.generic {}), none) :=
  ⟨by decide,
   (BinlogParser.parseEvent_unknown_generic protocolCodes NewBinlogParser { EventType := 3 }
      (by decide)).1 Reachable.new [],
   (BinlogParser.parseEvent_unknown_generic protocolCodes sampleParserAfterFormat
      { EventType := 3 } (by decide)).1
      (Reachable.event NewBinlogParser sampleParserAfterFormat
        { EventType := protocolCodes.FORMAT_DESCRIPTION_EVENT } sampleFormatBody none none
        Reachable.new rfl) [],
   (BinlogParser.parseEvent_unknown_generic protocolCodes sampleParserOff { EventType := 3 }
      (by decide)).2.1 (fun fd hfd => by cases hfd; decide) [7],
   (BinlogParser.parseEvent_unknown_generic protocolCodes sampleParserCRC32 { EventType := 3 }
      (by decide)).2.2 [9, 1, 2, 3, 4] (by decide)⟩

set_option maxRecDepth 100000 in
/-- C10 (the code diverges): `parseEvent` decodes no field and hands the stripped
body to nobody, so there are no decoded fields for the checksum bytes to
influence or not.  In every state a run reaches the checksum step leaves the
body as it is, and the result of `parseEvent` is the same for any two bodies.
In any state with the CRC32 algorithm the step does cut the 4 bytes off, but
its result is a dead store: `parseEvent` returns the same for any two bodies
b1 ++ c1 and b2 ++ c2 with 4-byte suffixes, whatever b1 and b2 are.  On the
sample stream: the FORMAT_DESCRIPTION body declares CRC32, after it the
parser holds the zero-valued descriptor, the XID body 99 followed by a
4-byte checksum is not stripped, and the XID event returned has XID 0, from
that state as well as from a state with the CRC32 algorithm, whereas
`XIDEvent.Decode` reads 99 from the body without the suffix. -/
theorem BinlogParser.parseEvent_crc32_undecoded (K : EventTypeCodes)
    (numberTable : Nat → Bool) :
    (∀ p, Reachable K p → ∀ data, p.stripChecksum data = .ok data) ∧
    (∀ p h d1 d2, Reachable K p → p.parseEvent K h d1 = p.parseEvent K h d2) ∧
    (∀ fd tables (h : EventHeader) (b1 b2 c1 c2 : Bytes), c1.length = 4 → c2.length = 4 →
      (parserWithChecksum fd tables BINLOG_CHECKSUM_ALG_CRC32).stripChecksum (b1 ++ c1)
        = .ok b1 ∧
      (parserWithChecksum fd tables BINLOG_CHECKSUM_ALG_CRC32).parseEvent K h (b1 ++ c1)
        = (parserWithChecksum fd tables BINLOG_CHECKSUM_ALG_CRC32).parseEvent K h (b2 ++ c2)) ∧
    (∃ fd, FormatDescriptionEvent.Decode numberTable {} sampleFormatBody = .ok (fd, none) ∧
      fd.ChecksumAlgorithm = BINLOG_CHECKSUM_ALG_CRC32) ∧
    NewBinlogParser.parseEvent protocolCodes
        { EventType := protocolCodes.FORMAT_DESCRIPTION_EVENT } sampleFormatBody
      = .ok (sampleParserAfterFormat, none, none) ∧
    sampleParserAfterFormat.stripChecksum (sampleXIDBody ++ [222, 173, 190, 239])
      = .ok (sampleXIDBody ++ [222, 173, 190, 239]) ∧
    sampleParserAfterFormat.parseEvent protocolCodes
        { EventType := protocolCodes.XID_EVENT } (sampleXIDBody ++ [222, 173, 190, 239])
      = .ok (sampleParserAfterFormat, some (.xid { XID := 0 }), none) ∧
    sampleParserCRC32.parseEvent protocolCodes
        { EventType := protocolCodes.XID_EVENT } (sampleXIDBody ++ [222, 173, 190, 239])
      = .ok (sampleParserCRC32, some (.xid { XID := 0 }), none) ∧
    XIDEvent.Decode {} sampleXIDBody = .ok ({ XID := 99 }, none) := by
  refine ⟨?_, ?_, ?_, ⟨_, rfl, rfl⟩, rfl, rfl, rfl, rfl, rfl⟩
  · intro p hr data
    exact stripChecksum_of_noChecksumStrip p (Reachable_noChecksumStrip K p hr) data
  · intro p h d1 d2 hr
    have hp := Reachable_noChecksumStrip K p hr
    exact parseEvent_body_irrelevant K p h d1 d2 d1 d2
      (stripChecksum_of_noChecksumStrip p hp d1) (stripChecksum_of_noChecksumStrip p hp d2)
  · intro fd tables h b1 b2 c1 c2 hc1 hc2
    have hs1 := stripChecksum_crc32_append fd tables b1 c1 hc1
    have hs2 := stripChecksum_crc32_append fd tables b2 c2 hc2
    exact ⟨hs1, parseEvent_body_irrelevant K _ h _ _ b1 b2 hs1 hs2⟩

/-! ## Witnesses and evaluations on the sample inputs -/

/-- C2 (witness): the sample header bytes. -/
theorem EventHeader.Decode_layout_witness :
    19 ≤ sampleHeaderBytes.length ∧
    EventHeader.Decode {} sampleHeaderBytes = .ok (sampleHeader, none) ∧
    sampleHeader.EventSize = leValue (window sampleHeaderBytes 9 4) ∧
    EventHeader.Decode sampleHeader (sampleHeaderBytes.take 19 ++ [7, 7]) = .ok (sampleHeader, none) :=
  have key := EventHeader.Decode_layout {} sampleHeader sampleHeaderBytes (by decide) rfl
  ⟨by decide, rfl, key.2.2.2.1, key.2.2.2.2.2.2 sampleHeader _ rfl⟩

set_option maxRecDepth 100000 in
/-- C3 (witness): the sample format description body, which is an encoding. -/
theorem FormatDescriptionEvent.Decode_boundary_witness :
    62 ≤ sampleFormatBody.length ∧ sampleFormatBody[56]? = some 19 ∧
    ∃ fd, FormatDescriptionEvent.Decode (fun _ => false) {} sampleFormatBody = .ok (fd, none) ∧
      fd = sampleFormat := by
  obtain ⟨_, fd, hdec, _, _, _, _, _, _, hround⟩ :=
    FormatDescriptionEvent.Decode_boundary (fun _ => false) {} sampleFormatBody (by decide) rfl
  exact ⟨by decide, rfl, fd, hdec,
    hround 4 sampleServerVersion 7 sampleLengths 1 [0, 0, 0, 0] rfl (by decide) rfl (by decide)
      rfl (by decide)⟩

set_option maxRecDepth 100000 in
/-- C4 (witness): the sample format description body. -/
theorem FormatDescriptionEvent.Decode_format_error_iff_witness :
    62 ≤ sampleFormatBody.length ∧
    ∃ fd err, FormatDescriptionEvent.Decode (fun _ => false) {} sampleFormatBody = .ok (fd, err) ∧
      (err ≠ none ↔ sampleFormatBody[56]? ≠ some 19) :=
  ⟨by decide,
   FormatDescriptionEvent.Decode_format_error_iff (fun _ => false) {} sampleFormatBody (by decide)⟩

/-- C5 (the code at the failing input): on the version string `5.7.20`, whose patch
number is followed by nothing, the scan for the first non-digit ends without
`break`, `index` stays 0, the patch number is parsed from the empty string and
contributes 0: the product is (5*256 + 7)*256 + 0 = 329472, not
(5*256 + 7)*256 + 20 = 329492.  On `5.7.20-` the patch number is parsed. -/
theorem calcVersionProduct_bare_patch (numberTable : Nat → Bool) :
    splitServerVersion numberTable sampleVersionBare = [5, 7, 0] ∧
    calcVersionProduct numberTable sampleVersionBare = (5 * 256 + 7) * 256 + 0 ∧
    calcVersionProduct numberTable sampleVersionBare ≠ (5 * 256 + 7) * 256 + 20 ∧
    calcVersionProduct numberTable sampleVersionDash = (5 * 256 + 7) * 256 + 20 := by
  refine ⟨rfl, rfl, ?_, rfl⟩
  have h : calcVersionProduct numberTable sampleVersionBare = 329472 := rfl
  rw [h]
  decide

set_option maxRecDepth 100000 in
/-- C6 (the code at the failing input): `sampleFormatBody` decodes without error to
`sampleFormat`, but `parseEvent` on a FORMAT_DESCRIPTION header with that body
leaves the parser with a zero-valued descriptor (empty header-length table,
checksum algorithm 0), which is not the decoded one, and returns a nil event. -/
theorem BinlogParser.parseEvent_formatDescription_undecoded (numberTable : Nat → Bool) :
    FormatDescriptionEvent.Decode numberTable {} sampleFormatBody = .ok (sampleFormat, none) ∧
    NewBinlogParser.parseEvent protocolCodes
        { EventType := protocolCodes.FORMAT_DESCRIPTION_EVENT } sampleFormatBody
      = .ok ({ format := some {}, tables := [] }, none, none) ∧
    (some ({} : FormatDescriptionEvent)) ≠ some sampleFormat := by
  refine ⟨rfl, rfl, ?_⟩
  decide

/-! ## The dispatcher and the scan on the sample inputs (C11, C13, C15, C17, C18, C20) -/

/-- C11 (the code at the failing input): `XIDEvent.Decode` reads XID 99 from the
8-byte little-endian encoding of 99, but `parseEvent` on an XID_EVENT header
with that body, from a fresh parser as well as from one whose descriptor has
checksum off, returns a zero-valued XID event (XID 0): it never calls `Decode`. -/
theorem BinlogParser.parseEvent_xid_undecoded :
    XIDEvent.Decode {} sampleXIDBody = .ok ({ XID := 99 }, none) ∧
    NewBinlogParser.parseEvent protocolCodes { EventType := protocolCodes.XID_EVENT }
        sampleXIDBody
      = .ok (NewBinlogParser, some (.xid { XID := 0 }), none) ∧
    sampleParserOff.parseEvent protocolCodes { EventType := protocolCodes.XID_EVENT }
        sampleXIDBody
      = .ok (sampleParserOff, some (.xid { XID := 0 }), none) := by
  refine ⟨rfl, rfl, rfl⟩

/-- C13 (the code at the failing input): on the GTID list with count 2 and the
triplets (1, 2, 3), (4, 5, 6) the decoder returns two GTIDs, the first one
right, the second one read 8 bytes too early (domain id 3, server id 0,
sequence number 4 + 5 * 2^32), because `pos` is not advanced past the 8-byte
sequence number. -/
theorem MariadbGTIDListEvent.Decode_second_triplet :
    MariadbGTIDListEvent.Decode {} sampleGTIDListBody
      = .ok ({ GTIDs := [{ DomainID := 1, ServerID := 2, SequenceNumber := 3 },
                         { DomainID := 3, ServerID := 0,
                           SequenceNumber := 4 + 5 * 2 ^ 32 }] }, none) ∧
    MariadbGTIDListEvent.Decode {} sampleGTIDListBody
      ≠ .ok ({ GTIDs := [{ DomainID := 1, ServerID := 2, SequenceNumber := 3 },
                         { DomainID := 4, ServerID := 5, SequenceNumber := 6 }] }, none) := by
  have h : MariadbGTIDListEvent.Decode {} sampleGTIDListBody
      = .ok ({ GTIDs := [{ DomainID := 1, ServerID := 2, SequenceNumber := 3 },
                         { DomainID := 3, ServerID := 0,
                           SequenceNumber := 4 + 5 * 2 ^ 32 }] }, none) := by rfl
  refine ⟨h, ?_⟩
  rw [h]
  decide

set_option maxRecDepth 100000 in
/-- C15 (the code at the failing input): a WRITE_ROWS_EVENTv2 event for table 1, with
an empty table-map cache, is not answered with an error.  From the state
`NewBinlogParser` the call panics (nil descriptor); after a FORMAT_DESCRIPTION
event whose table has an entry for every code it panics too (the descriptor is
the zero value, see C6); with a descriptor that has a header-length table it
returns a rows event and a nil error.  A TABLE_MAP event leaves the table-map
cache empty. -/
theorem BinlogParser.parseEvent_rows_unmapped (numberTable : Nat → Bool) :
    NewBinlogParser.parseEvent protocolCodes
        { EventType := protocolCodes.WRITE_ROWS_EVENTv2 } sampleRowsBody
      = .fault .nilDereference ∧
    (∃ fd, FormatDescriptionEvent.Decode numberTable {} sampleFullFormatBody = .ok (fd, none) ∧
      fd.EventTypeHeaderLengths = List.replicate 255 8) ∧
    NewBinlogParser.parseEvent protocolCodes
        { EventType := protocolCodes.FORMAT_DESCRIPTION_EVENT } sampleFullFormatBody
      = .ok (sampleParserAfterFormat, none, none) ∧
    sampleParserAfterFormat.parseEvent protocolCodes
        { EventType := protocolCodes.WRITE_ROWS_EVENTv2 } sampleRowsBody
      = .fault .indexOutOfRange ∧
    sampleParserOff.tables = [] ∧
    (∃ e, sampleParserOff.parseEvent protocolCodes
        { EventType := protocolCodes.WRITE_ROWS_EVENTv2 } sampleRowsBody
      = .ok (sampleParserOff, some (.rows e), none) ∧ e.tables = [] ∧ e.Table = none) ∧
    (∃ te, sampleParserOff.parseEvent protocolCodes
        { EventType := protocolCodes.TABLE_MAP_EVENT } sampleRowsBody
      = .ok (sampleParserOff, some (.tableMap te), none)) := by
  refine ⟨rfl, ⟨_, rfl, rfl⟩, rfl, rfl, rfl, ⟨_, rfl, rfl, rfl⟩, ⟨_, rfl⟩⟩

/-- C17 (the code at the failing input): the stream that consists of one complete
record with a valid header of declared size 19 and an empty body, followed by
nothing, is not parsed to a nil error: `Parse` returns the error
`invalid event header, event size is 19, too small`. -/
theorem BinlogParser.Parse_single_empty_record :
    sampleEmptyRecord.length = 19 ∧
    (∃ h, EventHeader.Decode {} sampleEmptyRecord = .ok (h, none) ∧ h.EventSize = 19) ∧
    NewBinlogParser.Parse protocolCodes sampleEmptyRecord
      = some (.ok { parser := NewBinlogParser, err := some (.eventSizeTooSmall 19),
                    records := [], rest := [] }) := by
  refine ⟨rfl, ⟨_, rfl, rfl⟩, rfl⟩

/-- C18 (the code at the failing input): on a stream whose next record has a valid
header of declared size exactly 19, followed by a complete XID record, `Parse`
fails on the first record with `invalid event header, event size is 19, too
small`: nothing is dispatched and the XID record is left unread, although
`parseHeader` accepts the header and the XID record alone is scanned to the
end without error. -/
theorem BinlogParser.Parse_empty_record_fatal :
    (∃ h, NewBinlogParser.parseHeader (sampleEmptyRecord.take 19) = .ok (some h, none) ∧
      h.EventSize = 19) ∧
    NewBinlogParser.Parse protocolCodes (sampleEmptyRecord ++ sampleXIDRecord)
      = some (.ok { parser := NewBinlogParser, err := some (.eventSizeTooSmall 19),
                    records := [], rest := sampleXIDRecord }) ∧
    NewBinlogParser.Parse protocolCodes sampleXIDRecord
      = some (.ok { parser := NewBinlogParser, err := none,
                    records := [(sampleXIDRecord.take 19, sampleXIDBody)], rest := [] }) := by
  refine ⟨⟨_, rfl, rfl⟩, rfl, rfl⟩

set_option maxRecDepth 100000 in
/-- C20 (the code at the failing input): from the state `NewBinlogParser`, after
`parseEvent` has processed a FORMAT_DESCRIPTION event whose body decodes to a
header-length table with an entry for every code from 1 to 255, the parser's
descriptor is the zero value with an empty table, and `parseEvent` on a
TABLE_MAP event and on a row-mutation event panics with an index out of range
instead of returning an event. -/
theorem BinlogParser.parseEvent_lookup_after_format (numberTable : Nat → Bool) :
    (∃ fd, FormatDescriptionEvent.Decode numberTable {} sampleFullFormatBody = .ok (fd, none) ∧
      fd.EventTypeHeaderLengths.length = 255) ∧
    NewBinlogParser.parseEvent protocolCodes
        { EventType := protocolCodes.FORMAT_DESCRIPTION_EVENT } sampleFullFormatBody
      = .ok (sampleParserAfterFormat, none, none) ∧
    sampleParserAfterFormat.parseEvent protocolCodes
        { EventType := protocolCodes.TABLE_MAP_EVENT } sampleRowsBody
      = .fault .indexOutOfRange ∧
    sampleParserAfterFormat.parseEvent protocolCodes
        { EventType := protocolCodes.UPDATE_ROWS_EVENTv1 } sampleRowsBody
      = .fault .indexOutOfRange := by
  refine ⟨⟨_, rfl, rfl⟩, rfl, rfl, rfl⟩

/-! ## The query event (C12) -/

theorem QueryEvent.Decode_query_long (self : QueryEvent) (data : Bytes) (n8 : Byte)
    (h8 : data[8]? = some n8)
    (hlen : 13 + leValue (window data 11 2) + n8.val + 1 ≤ data.length) :
    QueryEvent.Decode self data =
      .ok ({ SlaveProxyID := leValue (window data 0 4),
             ExecutionTime := leValue (window data 4 4),
             ErrorCode := leValue (window data 9 2),
             StatusVars := window data 13 (leValue (window data 11 2)),
             Schema := window data (13 + leValue (window data 11 2)) n8.val,
             Query := data.drop (13 + leValue (window data 11 2) + n8.val + 1) }, none) := by
  have e0 : sliceFrom data 0 = .ok (data.drop 0) := sliceFrom_ok data 0 (by omega) (by omega)
  have e4 : sliceFrom data 4 = .ok (data.drop 4) := sliceFrom_ok data 4 (by omega) (by omega)
  have e9 : sliceFrom data 9 = .ok (data.drop 9) := sliceFrom_ok data 9 (by omega) (by omega)
  have e11 : sliceFrom data 11 = .ok (data.drop 11) :=
    sliceFrom_ok data 11 (by omega) (by omega)
  have u0 := Uint32_drop data 0 (by omega)
  have u4 := Uint32_drop data 4 (by omega)
  have u9 := Uint16_drop data 9 (by omega)
  have u11 := Uint16_drop data 11 (by omega)
  have i8 : index data 8 = .ok n8 := index_ok data 8 n8 (by omega) h8
  simp only [QueryEvent.Decode]
  norm_num only
  simp only [e0, e4, e9, e11, u0, u4, u9, u11, i8, Run.ok_bind]
  have s1 : slice data 13 (13 + ((leValue (window data 11 2) : Nat) : Int))
      = .ok (window data 13 (leValue (window data 11 2))) := by
    rw [slice_ok data 13 _ (by omega) (by omega) (by omega)]
    have : (13 + ((leValue (window data 11 2) : Nat) : Int) - 13).toNat
        = leValue (window data 11 2) := by omega
    rw [this]
    rfl
  have s2 : slice data (13 + ((leValue (window data 11 2) : Nat) : Int))
      (13 + ((leValue (window data 11 2) : Nat) : Int) + ((n8.val : Nat) : Int))
      = .ok (window data (13 + leValue (window data 11 2)) n8.val) := by
    rw [slice_ok data _ _ (by omega) (by omega) (by omega)]
    have h1 : (13 + ((leValue (window data 11 2) : Nat) : Int)).toNat
        = 13 + leValue (window data 11 2) := by omega
    have h2 : (13 + ((leValue (window data 11 2) : Nat) : Int) + ((n8.val : Nat) : Int)
        - (13 + ((leValue (window data 11 2) : Nat) : Int))).toNat = n8.val := by omega
    rw [h1, h2]
    rfl
  have s3 : sliceFrom data
      (13 + ((leValue (window data 11 2) : Nat) : Int) + ((n8.val : Nat) : Int) + 1)
      = .ok (data.drop (13 + leValue (window data 11 2) + n8.val + 1)) := by
    rw [sliceFrom_ok data _ (by omega) (by omega)]
    have h1 : (13 + ((leValue (window data 11 2) : Nat) : Int) + ((n8.val : Nat) : Int) + 1).toNat
        = 13 + leValue (window data 11 2) + n8.val + 1 := by omega
    rw [h1]
  simp only [s1, s2, s3, Run.ok_bind]

theorem window_append_drop (data : Bytes) (a m : Nat) :
    window data a m ++ data.drop (a + m) = data.drop a := by
  have h : data.drop (a + m) = (data.drop a).drop m := by
    rw [List.drop_drop]
  rw [window, h, List.take_append_drop]

theorem drop_eq_cons_of_getElem? (data : Bytes) (k : Nat) (b : Byte) (h : data[k]? = some b) :
    data.drop k = b :: data.drop (k + 1) := by
  have hk : k < data.length := by
    by_contra hge
    rw [List.getElem?_eq_none (by omega)] at h
    cases h
  rw [List.drop_eq_getElem_cons hk]
  rw [List.getElem?_eq_getElem hk] at h
  cases h
  rfl

/-- C12: for every body with n = data[8] and m = LE16(data[11..12]) and
len(data) >= 13 + m + n + 1, `QueryEvent.Decode` succeeds with
SlaveProxyID = LE32(data[0..3]), ExecutionTime = LE32(data[4..7]),
ErrorCode = LE16(data[9..10]), StatusVars = data[13 .. 13+m),
Schema = data[13+m .. 13+m+n) and Query = data[13+m+n+1 .. len): one byte, the one
at index 13+m+n, is skipped, and StatusVars ++ Schema ++ [skipped byte] ++ Query
is data[13..]. -/
theorem QueryEvent.Decode_query_layout (self : QueryEvent) (data : Bytes) (n8 : Byte)
    (h8 : data[8]? = some n8)
    (hlen : 13 + leValue (window data 11 2) + n8.val + 1 ≤ data.length) :
    ∃ q skipped, QueryEvent.Decode self data = .ok (q, none) ∧
      q.SlaveProxyID = leValue (window data 0 4) ∧
      q.ExecutionTime = leValue (window data 4 4) ∧
      q.ErrorCode = leValue (window data 9 2) ∧
      q.StatusVars = window data 13 (leValue (window data 11 2)) ∧
      q.Schema = window data (13 + leValue (window data 11 2)) n8.val ∧
      q.Query = data.drop (13 + leValue (window data 11 2) + n8.val + 1) ∧
      data[13 + leValue (window data 11 2) + n8.val]? = some skipped ∧
      q.StatusVars ++ q.Schema ++ [skipped] ++ q.Query = data.drop 13 := by
  obtain ⟨skipped, hs⟩ := get?_isSome_of_lt data (13 + leValue (window data 11 2) + n8.val)
    (by omega)
  refine ⟨_, skipped, QueryEvent.Decode_query_long self data n8 h8 hlen,
    rfl, rfl, rfl, rfl, rfl, rfl, hs, ?_⟩
  simp only [List.append_assoc, List.singleton_append]
  rw [← drop_eq_cons_of_getElem? data _ skipped hs, window_append_drop, window_append_drop]

/-- C12 (witness): a body with schema length 2 and status-vars length 1. -/
theorem QueryEvent.Decode_query_layout_witness :
    ∃ q, QueryEvent.Decode {} sampleQueryBody = .ok (q, none) ∧
      q.StatusVars = [77] ∧ q.Schema = [100, 98] ∧ q.Query = [83, 81, 76] := by
  obtain ⟨q, skipped, hd, _, _, _, h1, h2, h3, _, _⟩ :=
    QueryEvent.Decode_query_layout {} sampleQueryBody 2 rfl (by decide)
  exact ⟨q, hd, h1, h2, h3⟩

/-! ## Bodies shorter than the fixed minimum (C14) -/

theorem RotateEvent.Decode_RotateEvent_short (self : RotateEvent) (data : Bytes) (h : data.length < 8) :
    ∃ p, RotateEvent.Decode self data = .fault p := by
  match data, h with
  | [], _ => exact ⟨_, rfl⟩
  | [_], _ => exact ⟨_, rfl⟩
  | [_, _], _ => exact ⟨_, rfl⟩
  | [_, _, _], _ => exact ⟨_, rfl⟩
  | [_, _, _, _], _ => exact ⟨_, rfl⟩
  | [_, _, _, _, _], _ => exact ⟨_, rfl⟩
  | [_, _, _, _, _, _], _ => exact ⟨_, rfl⟩
  | [_, _, _, _, _, _, _], _ => exact ⟨_, rfl⟩
  | _ :: _ :: _ :: _ :: _ :: _ :: _ :: _ :: t, h => simp only [List.length_cons] at h; omega

theorem XIDEvent.Decode_XIDEvent_short (self : XIDEvent) (data : Bytes) (h : data.length < 8) :
    ∃ p, XIDEvent.Decode self data = .fault p := by
  match data, h with
  | [], _ => exact ⟨_, rfl⟩
  | [_], _ => exact ⟨_, rfl⟩
  | [_, _], _ => exact ⟨_, rfl⟩
  | [_, _, _], _ => exact ⟨_, rfl⟩
  | [_, _, _, _], _ => exact ⟨_, rfl⟩
  | [_, _, _, _, _], _ => exact ⟨_, rfl⟩
  | [_, _, _, _, _, _], _ => exact ⟨_, rfl⟩
  | [_, _, _, _, _, _, _], _ => exact ⟨_, rfl⟩
  | _ :: _ :: _ :: _ :: _ :: _ :: _ :: _ :: t, h => simp only [List.length_cons] at h; omega

theorem QueryEvent.Decode_QueryEvent_short (self : QueryEvent) (data : Bytes) (h : data.length < 13) :
    ∃ p, QueryEvent.Decode self data = .fault p := by
  match data, h with
  | [], _ => exact ⟨_, rfl⟩
  | [_], _ => exact ⟨_, rfl⟩
  | [_, _], _ => exact ⟨_, rfl⟩
  | [_, _, _], _ => exact ⟨_, rfl⟩
  | [_, _, _, _], _ => exact ⟨_, rfl⟩
  | [_, _, _, _, _], _ => exact ⟨_, rfl⟩
  | [_, _, _, _, _, _], _ => exact ⟨_, rfl⟩
  | [_, _, _, _, _, _, _], _ => exact ⟨_, rfl⟩
  | [_, _, _, _, _, _, _, _], _ => exact ⟨_, rfl⟩
  | [_, _, _, _, _, _, _, _, _], _ => exact ⟨_, rfl⟩
  | [_, _, _, _, _, _, _, _, _, _], _ => exact ⟨_, rfl⟩
  | [_, _, _, _, _, _, _, _, _, _, _], _ => exact ⟨_, rfl⟩
  | [_, _, _, _, _, _, _, _, _, _, _, _], _ => exact ⟨_, rfl⟩
  | _ :: _ :: _ :: _ :: _ :: _ :: _ :: _ :: _ :: _ :: _ :: _ :: _ :: t, h => simp only [List.length_cons] at h; omega

theorem MariadbGTIDEvent.Decode_MariadbGTIDEvent_short (self : MariadbGTIDEvent) (data : Bytes) (h : data.length < 12) :
    ∃ p, MariadbGTIDEvent.Decode self data = .fault p := by
  match data, h with
  | [], _ => exact ⟨_, rfl⟩
  | [_], _ => exact ⟨_, rfl⟩
  | [_, _], _ => exact ⟨_, rfl⟩
  | [_, _, _], _ => exact ⟨_, rfl⟩
  | [_, _, _, _], _ => exact ⟨_, rfl⟩
  | [_, _, _, _, _], _ => exact ⟨_, rfl⟩
  | [_, _, _, _, _, _], _ => exact ⟨_, rfl⟩
  | [_, _, _, _, _, _, _], _ => exact ⟨_, rfl⟩
  | [_, _, _, _, _, _, _, _], _ => exact ⟨_, rfl⟩
  | [_, _, _, _, _, _, _, _, _], _ => exact ⟨_, rfl⟩
  | [_, _, _, _, _, _, _, _, _, _], _ => exact ⟨_, rfl⟩
  | [_, _, _, _, _, _, _, _, _, _, _], _ => exact ⟨_, rfl⟩
  | _ :: _ :: _ :: _ :: _ :: _ :: _ :: _ :: _ :: _ :: _ :: _ :: t, h => simp only [List.length_cons] at h; omega

theorem MariadbGTIDListEvent.Decode_MariadbGTIDListEvent_short (self : MariadbGTIDListEvent) (data : Bytes) (h : data.length < 4) :
    ∃ p, MariadbGTIDListEvent.Decode self data = .fault p := by
  match data, h with
  | [], _ => exact ⟨_, rfl⟩
  | [_], _ => exact ⟨_, rfl⟩
  | [_, _], _ => exact ⟨_, rfl⟩
  | [_, _, _], _ => exact ⟨_, rfl⟩
  | _ :: _ :: _ :: _ :: t, h => simp only [List.length_cons] at h; omega

theorem BeginLoadQueryEvent.Decode_BeginLoadQueryEvent_short (self : BeginLoadQueryEvent) (data : Bytes) (h : data.length < 4) :
    ∃ p, BeginLoadQueryEvent.Decode self data = .fault p := by
  match data, h with
  | [], _ => exact ⟨_, rfl⟩
  | [_], _ => exact ⟨_, rfl⟩
  | [_, _], _ => exact ⟨_, rfl⟩
  | [_, _, _], _ => exact ⟨_, rfl⟩
  | _ :: _ :: _ :: _ :: t, h => simp only [List.length_cons] at h; omega

theorem ExecuteLoadQueryEvent.Decode_ExecuteLoadQueryEvent_short (self : ExecuteLoadQueryEvent) (data : Bytes) (h : data.length < 26) :
    ∃ p, ExecuteLoadQueryEvent.Decode self data = .fault p := by
  match data, h with
  | [], _ => exact ⟨_, rfl⟩
  | [_], _ => exact ⟨_, rfl⟩
  | [_, _], _ => exact ⟨_, rfl⟩
  | [_, _, _], _ => exact ⟨_, rfl⟩
  | [_, _, _, _], _ => exact ⟨_, rfl⟩
  | [_, _, _, _, _], _ => exact ⟨_, rfl⟩
  | [_, _, _, _, _, _], _ => exact ⟨_, rfl⟩
  | [_, _, _, _, _, _, _], _ => exact ⟨_, rfl⟩
  | [_, _, _, _, _, _, _, _], _ => exact ⟨_, rfl⟩
  | [_, _, _, _, _, _, _, _, _], _ => exact ⟨_, rfl⟩
  | [_, _, _, _, _, _, _, _, _, _], _ => exact ⟨_, rfl⟩
  | [_, _, _, _, _, _, _, _, _, _, _], _ => exact ⟨_, rfl⟩
  | [_, _, _, _, _, _, _, _, _, _, _, _], _ => exact ⟨_, rfl⟩
  | [_, _, _, _, _, _, _, _, _, _, _, _, _], _ => exact ⟨_, rfl⟩
  | [_, _, _, _, _, _, _, _, _, _, _, _, _, _], _ => exact ⟨_, rfl⟩
  | [_, _, _, _, _, _, _, _, _, _, _, _, _, _, _], _ => exact ⟨_, rfl⟩
  | [_, _, _, _, _, _, _, _, _, _, _, _, _, _, _, _], _ => exact ⟨_, rfl⟩
  | [_, _, _, _, _, _, _, _, _, _, _, _, _, _, _, _, _], _ => exact ⟨_, rfl⟩
  | [_, _, _, _, _, _, _, _, _, _, _, _, _, _, _, _, _, _], _ => exact ⟨_, rfl⟩
  | [_, _, _, _, _, _, _, _, _, _, _, _, _, _, _, _, _, _, _], _ => exact ⟨_, rfl⟩
  | [_, _, _, _, _, _, _, _, _, _, _, _, _, _, _, _, _, _, _, _], _ => exact ⟨_, rfl⟩
  | [_, _, _, _, _, _, _, _, _, _, _, _, _, _, _, _, _, _, _, _, _], _ => exact ⟨_, rfl⟩
  | [_, _, _, _, _, _, _, _, _, _, _, _, _, _, _, _, _, _, _, _, _, _], _ => exact ⟨_, rfl⟩
  | [_, _, _, _, _, _, _, _, _, _, _, _, _, _, _, _, _, _, _, _, _, _, _], _ => exact ⟨_, rfl⟩
  | [_, _, _, _, _, _, _, _, _, _, _, _, _, _, _, _, _, _, _, _, _, _, _, _], _ => exact ⟨_, rfl⟩
  | [_, _, _, _, _, _, _, _, _, _, _, _, _, _, _, _, _, _, _, _, _, _, _, _, _], _ => exact ⟨_, rfl⟩
  | _ :: _ :: _ :: _ :: _ :: _ :: _ :: _ :: _ :: _ :: _ :: _ :: _ :: _ :: _ :: _ :: _ :: _ :: _ :: _ :: _ :: _ :: _ :: _ :: _ :: _ :: t, h => simp only [List.length_cons] at h; omega

theorem RowsQueryEvent.Decode_RowsQueryEvent_short (self : RowsQueryEvent) (data : Bytes) (h : data.length < 1) :
    ∃ p, RowsQueryEvent.Decode self data = .fault p := by
  match data, h with
  | [], _ => exact ⟨_, rfl⟩
  | _ :: t, h => simp only [List.length_cons] at h; omega

/-- C14 (the code on every too-short body): for every body shorter than the fixed
minimum of a scalar decoder (Rotate 8, XID 8, Query 13, MariaDB GTID 12,
MariaDB GTID-list 4, Begin-Load-Query 4, Execute-Load-Query 26, Rows-query 1)
the decoder does not return an error value: a read or slice goes out of range
and the call panics. -/
theorem scalarDecoders_short_body_panic (data : Bytes) :
    (data.length < 8 → ∀ self, ∃ p, RotateEvent.Decode self data = .fault p) ∧
    (data.length < 8 → ∀ self, ∃ p, XIDEvent.Decode self data = .fault p) ∧
    (data.length < 13 → ∀ self, ∃ p, QueryEvent.Decode self data = .fault p) ∧
    (data.length < 12 → ∀ self, ∃ p, MariadbGTIDEvent.Decode self data = .fault p) ∧
    (data.length < 4 → ∀ self, ∃ p, MariadbGTIDListEvent.Decode self data = .fault p) ∧
    (data.length < 4 → ∀ self, ∃ p, BeginLoadQueryEvent.Decode self data = .fault p) ∧
    (data.length < 26 → ∀ self, ∃ p, ExecuteLoadQueryEvent.Decode self data = .fault p) ∧
    (data.length < 1 → ∀ self, ∃ p, RowsQueryEvent.Decode self data = .fault p) :=
  ⟨fun h self => RotateEvent.Decode_RotateEvent_short self data h,
   fun h self => XIDEvent.Decode_XIDEvent_short self data h,
   fun h self => QueryEvent.Decode_QueryEvent_short self data h,
   fun h self => MariadbGTIDEvent.Decode_MariadbGTIDEvent_short self data h,
   fun h self => MariadbGTIDListEvent.Decode_MariadbGTIDListEvent_short self data h,
   fun h self => BeginLoadQueryEvent.Decode_BeginLoadQueryEvent_short self data h,
   fun h self => ExecuteLoadQueryEvent.Decode_ExecuteLoadQueryEvent_short self data h,
   fun h self => RowsQueryEvent.Decode_RowsQueryEvent_short self data h⟩

/-- C14 (witness): a 7-byte body given to the XID decoder and to the rotate decoder,
and the empty body given to the rows-query decoder. -/
theorem scalarDecoders_short_body_panic_witness :
    (∃ p, XIDEvent.Decode {} [99, 0, 0, 0, 0, 0, 0] = .fault p) ∧
    (∃ p, RotateEvent.Decode {} [99, 0, 0, 0, 0, 0, 0] = .fault p) ∧
    (∃ p, RowsQueryEvent.Decode {} [] = .fault p) :=
  ⟨(scalarDecoders_short_body_panic [99, 0, 0, 0, 0, 0, 0]).2.1 (by decide) {},
   (scalarDecoders_short_body_panic [99, 0, 0, 0, 0, 0, 0]).1 (by decide) {},
   (scalarDecoders_short_body_panic []).2.2.2.2.2.2.2 (by decide) {}⟩

/-! ## The magic prefix (C16) -/

theorem makeCopy_ne_magic (contents : Bytes) (h : contents.take 4 ≠ BinLogFileHeader) :
    makeCopy 4 contents ≠ BinLogFileHeader := by
  match contents, h with
  | [], _ => simp [makeCopy, BinLogFileHeader]
  | [_], _ => simp [makeCopy, BinLogFileHeader]
  | [_, _], _ => simp [makeCopy, BinLogFileHeader]
  | [_, _, _], _ => simp [makeCopy, BinLogFileHeader]
  | a :: b :: c :: d :: t, h =>
    have e : makeCopy 4 (a :: b :: c :: d :: t) = (a :: b :: c :: d :: t).take 4 :=
      makeCopy_of_le 4 _ (by simp)
    rw [e]
    exact h

/-- C16 (as amended): for every file whose first 4 bytes are not the magic value
(every file of fewer than 4 bytes included), `ParseFile` returns an error before
any event header is read: the parser is unchanged, no record is dispatched and
only the magic bytes are consumed.  The error is the bad-magic error
(`not a valid binlog file`) when the file is not empty, and the read error
`io.EOF` when the file is empty. -/
theorem BinlogParser.ParseFile_bad_magic (K : EventTypeCodes) (self : BinlogParser)
    (contents : Bytes) (offset : Int) (hmagic : contents.take 4 ≠ BinLogFileHeader) :
    self.ParseFile K (some contents) offset
      = some (.ok { parser := self,
                    err := some (if contents = [] then .EOF else .notValidBinlogFile),
                    records := [], rest := contents.drop 4 }) := by
  unfold BinlogParser.ParseFile
  by_cases he : contents = []
  · subst he
    rfl
  · have hl : ¬ contents.length = 0 := fun h => he (List.length_eq_zero.mp h)
    simp only [hl, if_false, makeCopy_ne_magic contents hmagic, ne_eq, not_false_eq_true,
      if_true, he]

/-- C16 (counterexample): the empty file does not start with the magic value, and
`ParseFile` returns `io.EOF`, which is not the bad-magic error. -/
theorem BinlogParser.ParseFile_empty_file :
    ([] : Bytes).take 4 ≠ BinLogFileHeader ∧
    NewBinlogParser.ParseFile protocolCodes (some []) 0
      = some (.ok { parser := NewBinlogParser, err := some .EOF, records := [], rest := [] }) ∧
    Err.EOF ≠ Err.notValidBinlogFile := by
  refine ⟨by decide, rfl, by decide⟩

/-- C16 (witness): a file whose fourth byte differs from the magic value, and a file
of three bytes. -/
theorem BinlogParser.ParseFile_bad_magic_witness :
    NewBinlogParser.ParseFile protocolCodes (some sampleBadMagicFile) 0
      = some (.ok { parser := NewBinlogParser, err := some .notValidBinlogFile,
                    records := [], rest := sampleXIDRecord }) ∧
    NewBinlogParser.ParseFile protocolCodes (some [0xfe, 0x62, 0x69]) 0
      = some (.ok { parser := NewBinlogParser, err := some .notValidBinlogFile,
                    records := [], rest := [] }) :=
  ⟨BinlogParser.ParseFile_bad_magic protocolCodes NewBinlogParser sampleBadMagicFile 0
     (by decide),
   BinlogParser.ParseFile_bad_magic protocolCodes NewBinlogParser [0xfe, 0x62, 0x69] 0
     (by decide)⟩

/-! ## Termination of the scan loop (C19) -/

/-- An iteration that goes on has taken a 19-byte header and a body of at least one
byte from the front of the reader, and has recorded exactly that. -/
theorem ParseIteration_next (K : EventTypeCodes) (self s : BinlogParser) (r r2 : Bytes)
    (done d2 : List (Bytes × Bytes))
    (h : self.ParseIteration K r done = .next s r2 d2) :
    ∃ hb body, hb.length = 19 ∧ 1 ≤ body.length ∧ r = hb ++ body ++ r2 ∧
      d2 = done ++ [(hb, body)] := by
  unfold BinlogParser.ParseIteration at h
  by_cases h0 : r.length = 0
  · rw [if_pos h0] at h
    cases h
  rw [if_neg h0] at h
  by_cases h19 : r.length < EventHeaderSize
  · rw [if_pos h19] at h
    cases h
  rw [if_neg h19] at h
  simp only at h
  split at h
  · cases h
  · cases h
  · cases h
  · rename_i hd hph
    split at h
    · cases h
    · rename_i hsz
      split at h
      · cases h
      · rename_i hbody
        split at h
        · cases h
        · split at h
          · cases h
          · rename_i p2 e2 err2 hpe
            simp only [ParseStep.next.injEq] at h
            obtain ⟨_, hr2, hd2⟩ := h
            refine ⟨r.take EventHeaderSize,
              (r.drop EventHeaderSize).take (hd.EventSize - EventHeaderSize), ?_, ?_, ?_, hd2.symm⟩
            · simp only [List.length_take, EventHeaderSize] at *
              omega
            · simp only [List.length_take, List.length_drop, EventHeaderSize] at *
              omega
            · rw [← hr2, List.append_assoc, List.take_append_drop, List.take_append_drop]

/-- An iteration that returns from `Parse` leaves the record of the run as it was. -/
theorem ParseIteration_stop (K : EventTypeCodes) (self : BinlogParser) (r : Bytes)
    (done : List (Bytes × Bytes)) (o : ParseOutcome)
    (h : self.ParseIteration K r done = .stop (.ok o)) : o.records = done := by
  unfold BinlogParser.ParseIteration at h
  by_cases h0 : r.length = 0
  · rw [if_pos h0] at h
    cases h
    rfl
  rw [if_neg h0] at h
  by_cases h19 : r.length < EventHeaderSize
  · rw [if_pos h19] at h
    cases h
    rfl
  rw [if_neg h19] at h
  simp only at h
  split at h
  · cases h
  · cases h
    rfl
  · cases h
  · split at h
    · cases h
      rfl
    · split at h
      · cases h
        rfl
      · split at h
        · cases h
          rfl
        · split at h
          · cases h
          · cases h

theorem ParseLoop_succ_eq (K : EventTypeCodes) (fuel : Nat) (self : BinlogParser) (r : Bytes)
    (done : List (Bytes × Bytes)) :
    BinlogParser.ParseLoop K (fuel + 1) self r done =
      match self.ParseIteration K r done with
      | .stop out => some out
      | .next s r2 d2 => BinlogParser.ParseLoop K fuel s r2 d2 := rfl

theorem ParseLoop_mono (K : EventTypeCodes) (fuel : Nat) :
    ∀ (self : BinlogParser) (r : Bytes) (done : List (Bytes × Bytes)) (out : Run ParseOutcome)
      (fuel2 : Nat), fuel ≤ fuel2 → BinlogParser.ParseLoop K fuel self r done = some out →
      BinlogParser.ParseLoop K fuel2 self r done = some out := by
  induction fuel with
  | zero =>
    intro self r done out fuel2 _ h
    cases h
  | succ fuel ih =>
    intro self r done out fuel2 hle h
    obtain ⟨k, rfl⟩ : ∃ k, fuel2 = k + 1 := ⟨fuel2 - 1, by omega⟩
    rw [ParseLoop_succ_eq] at h ⊢
    cases hstep : self.ParseIteration K r done with
    | stop o =>
      rw [hstep] at h
      exact h
    | next s r2 d2 =>
      rw [hstep] at h
      exact ih s r2 d2 out k (by omega) h

theorem ParseLoop_enough (K : EventTypeCodes) (fuel : Nat) :
    ∀ (self : BinlogParser) (r : Bytes) (done : List (Bytes × Bytes)),
      r.length / 20 + 1 ≤ fuel → ∃ out, BinlogParser.ParseLoop K fuel self r done = some out := by
  induction fuel with
  | zero =>
    intro self r done h
    omega
  | succ fuel ih =>
    intro self r done h
    rw [ParseLoop_succ_eq]
    cases hstep : self.ParseIteration K r done with
    | stop o => exact ⟨o, rfl⟩
    | next s r2 d2 =>
      obtain ⟨hb, body, h1, h2, h3, _⟩ := ParseIteration_next K self s r r2 done d2 hstep
      have hl : r2.length + 20 ≤ r.length := by
        rw [h3]
        simp only [List.length_append]
        omega
      exact ih s r2 d2 (by omega)

theorem ParseLoop_records (K : EventTypeCodes) (fuel : Nat) :
    ∀ (self : BinlogParser) (r : Bytes) (done : List (Bytes × Bytes)) (o : ParseOutcome),
      BinlogParser.ParseLoop K fuel self r done = some (.ok o) →
      ∃ new, o.records = done ++ new ∧ (∀ rec ∈ new, rec.1.length = 19 ∧ 1 ≤ rec.2.length) ∧
        new.length ≤ r.length / 20 ∧ ∃ tail, r = recordBytes new ++ tail := by
  induction fuel with
  | zero =>
    intro self r done o h
    cases h
  | succ fuel ih =>
    intro self r done o h
    rw [ParseLoop_succ_eq] at h
    cases hstep : self.ParseIteration K r done with
    | stop out =>
      rw [hstep] at h
      simp only [Option.some.injEq] at h
      subst h
      refine ⟨[], ?_, ?_, ?_, r, rfl⟩
      · rw [ParseIteration_stop K self r done o hstep, List.append_nil]
      · intro rec hrec
        cases hrec
      · simp
    | next s r2 d2 =>
      rw [hstep] at h
      obtain ⟨hb, body, h1, h2, h3, h4⟩ := ParseIteration_next K self s r r2 done d2 hstep
      obtain ⟨new, hn1, hn2, hn3, tail, hn4⟩ := ih s r2 d2 o h
      have hl : r.length = r2.length + (19 + body.length) := by
        rw [h3]
        simp only [List.length_append, h1]
        omega
      refine ⟨(hb, body) :: new, ?_, ?_, ?_, tail, ?_⟩
      · rw [hn1, h4, List.append_assoc]
        rfl
      · intro rec hrec
        rcases List.mem_cons.mp hrec with hrec | hrec
        · subst hrec
          exact ⟨h1, h2⟩
        · exact hn2 rec hrec
      · simp only [List.length_cons]
        omega
      · rw [h3, hn4]
        simp [recordBytes, List.append_assoc]

/-- C19: on every finite input the scan loop of `Parse` ends (by returning, or by a
panic of the dispatcher) within len(input)/20 + 1 iterations, and running the
loop for more iterations changes nothing.  When `Parse` returns, every
iteration that did not return took a 19-byte header and a body of at least one
byte, so at least 20 bytes; there are at most len(input)/20 of them, and the
bytes they took are one after the other a prefix of the input. -/
theorem BinlogParser.Parse_terminates (K : EventTypeCodes) (self : BinlogParser)
    (input : Bytes) :
    ∃ out, self.Parse K input = some out ∧
      (∀ fuel, input.length / 20 + 1 ≤ fuel →
        BinlogParser.ParseLoop K fuel { self with tables := [] } input [] = some out) ∧
      (∀ o, out = .ok o →
        (∀ rec ∈ o.records, rec.1.length = 19 ∧ 1 ≤ rec.2.length) ∧
        o.records.length + 1 ≤ input.length / 20 + 1 ∧
        ∃ tail, input = recordBytes o.records ++ tail) := by
  obtain ⟨out, hout⟩ := ParseLoop_enough K (input.length / 20 + 1) { self with tables := [] }
    input [] (Nat.le_refl _)
  refine ⟨out, hout, ?_, ?_⟩
  · intro fuel hf
    exact ParseLoop_mono K _ _ input [] out fuel hf hout
  · intro o ho
    subst ho
    obtain ⟨new, h1, h2, h3, tail, h4⟩ := ParseLoop_records K _ _ input [] o hout
    rw [List.nil_append] at h1
    rw [h1]
    exact ⟨h2, by omega, tail, h4⟩

/-! ## The scan over complete records with a non-empty body -/

theorem parseEvent_complete (K : EventTypeCodes) (self : BinlogParser) (h : EventHeader)
    (data : Bytes) (hinv : NoChecksumStrip self) (hTM : h.EventType ≠ K.TABLE_MAP_EVENT)
    (hrows : h.EventType ∉ K.rowsCodes) :
    ∃ p e err, self.parseEvent K h data = .ok (p, e, err) ∧ NoChecksumStrip p := by
  by_cases hfd : h.EventType = K.FORMAT_DESCRIPTION_EVENT
  · refine ⟨{ self with format := some {} }, none, none, ?_, ?_⟩
    · unfold BinlogParser.parseEvent
      rw [if_pos hfd]
    · intro fd hf
      simp only [Option.some.injEq] at hf
      subst hf
      decide
  · obtain ⟨d, hd⟩ := stripChecksum_ok self data (fun fd hf hc => absurd hc (hinv fd hf))
    obtain ⟨e, he⟩ := parseEvent_ok_of_no_lookup K self h data d hd hfd hTM hrows
    exact ⟨self, some e, none, he, hinv⟩

theorem parseHeader_of_Decode (self : BinlogParser) (hb : Bytes) (h : EventHeader)
    (hd : EventHeader.Decode {} hb = .ok (h, none)) :
    self.parseHeader hb = .ok (some h, none) := by
  simp [BinlogParser.parseHeader, hd]

theorem ParseIteration_complete (K : EventTypeCodes) (self : BinlogParser) (hb body rest : Bytes)
    (done : List (Bytes × Bytes)) (hinv : NoChecksumStrip self)
    (hrec : CompleteRecord K (hb, body)) :
    ∃ p, NoChecksumStrip p ∧
      self.ParseIteration K (hb ++ body ++ rest) done = .next p rest (done ++ [(hb, body)]) := by
  obtain ⟨hl, hbody, h, hdec, hsize, hTM, hrows⟩ := hrec
  simp only at hl hbody hsize
  obtain ⟨p, e, err, hpe, hp⟩ := parseEvent_complete K self h body hinv hTM hrows
  refine ⟨p, hp, ?_⟩
  have h0 : ¬ (hb ++ body ++ rest).length = 0 := by
    simp only [List.length_append]
    omega
  have h19 : ¬ (hb ++ body ++ rest).length < EventHeaderSize := by
    simp only [List.length_append, EventHeaderSize]
    omega
  have ht : (hb ++ body ++ rest).take EventHeaderSize = hb := by
    rw [List.append_assoc, EventHeaderSize, ← hl, List.take_left]
  have hdr : (hb ++ body ++ rest).drop EventHeaderSize = body ++ rest := by
    rw [List.append_assoc, EventHeaderSize, ← hl, List.drop_left]
  have hsz : ¬ h.EventSize ≤ EventHeaderSize := by
    simp only [EventHeaderSize]
    omega
  have hn : h.EventSize - EventHeaderSize = body.length := by
    simp only [EventHeaderSize]
    omega
  have hcopy : ¬ (body ++ rest).length < body.length := by
    simp only [List.length_append]
    omega
  unfold BinlogParser.ParseIteration
  rw [if_neg h0, if_neg h19]
  simp only [ht, hdr, parseHeader_of_Decode self hb h hdec, if_neg hsz, hn, if_neg hcopy,
    List.take_left, List.drop_left, ne_eq, not_true_eq_false, if_false, hpe]

theorem ParseLoop_complete_records (K : EventTypeCodes) :
    ∀ (recs : List (Bytes × Bytes)) (self : BinlogParser) (done : List (Bytes × Bytes))
      (rest : Bytes), NoChecksumStrip self → (∀ rec ∈ recs, CompleteRecord K rec) →
      ∃ p, NoChecksumStrip p ∧ ∀ fuel,
        BinlogParser.ParseLoop K (recs.length + fuel) self (recordBytes recs ++ rest) done
          = BinlogParser.ParseLoop K fuel p rest (done ++ recs) := by
  intro recs
  induction recs with
  | nil =>
    intro self done rest hinv _
    refine ⟨self, hinv, ?_⟩
    intro fuel
    simp [recordBytes]
  | cons rec recs ih =>
    intro self done rest hinv hrecs
    obtain ⟨hb, body⟩ := rec
    have hrec : CompleteRecord K (hb, body) := hrecs _ (List.mem_cons_self _ _)
    obtain ⟨p1, hp1, hstep⟩ :=
      ParseIteration_complete K self hb body (recordBytes recs ++ rest) done hinv hrec
    obtain ⟨p, hp, hfuel⟩ := ih p1 (done ++ [(hb, body)]) rest hp1
      (fun r hr => hrecs r (List.mem_cons_of_mem _ hr))
    refine ⟨p, hp, ?_⟩
    intro fuel
    have e1 : (((hb, body) :: recs).length + fuel) = (recs.length + fuel) + 1 := by
      simp only [List.length_cons]
      omega
    have e2 : recordBytes ((hb, body) :: recs) ++ rest
        = hb ++ body ++ (recordBytes recs ++ rest) := by
      simp [recordBytes, List.append_assoc]
    rw [e1, e2, ParseLoop_succ_eq, hstep]
    simp only
    rw [hfuel fuel, List.append_assoc]
    rfl

theorem Parse_of_ParseLoop (K : EventTypeCodes) (self : BinlogParser) (input : Bytes)
    (fuel : Nat) (out : Run ParseOutcome)
    (h : BinlogParser.ParseLoop K fuel { self with tables := [] } input [] = some out) :
    self.Parse K input = some out := by
  obtain ⟨out2, h2⟩ := ParseLoop_enough K (input.length / 20 + 1) { self with tables := [] }
    input [] (Nat.le_refl _)
  have m1 := ParseLoop_mono K _ _ input [] out (max fuel (input.length / 20 + 1))
    (Nat.le_max_left _ _) h
  have m2 := ParseLoop_mono K _ _ input [] out2 (max fuel (input.length / 20 + 1))
    (Nat.le_max_right _ _) h2
  rw [m1] at m2
  unfold BinlogParser.Parse
  rw [h2, ← m2]

/-- The scan over complete records with non-empty bodies: from a parser without a
CRC32 descriptor, `Parse` dispatches every record in order; it returns nil when
nothing follows the last record, `io.ErrUnexpectedEOF` when 1 to 18 bytes
follow, and the body error when a full valid header follows whose declared
body is longer than the bytes after it. -/
theorem BinlogParser.Parse_complete_records (K : EventTypeCodes) (self : BinlogParser)
    (recs : List (Bytes × Bytes)) (r : Bytes) (hinv : NoChecksumStrip self)
    (hrecs : ∀ rec ∈ recs, CompleteRecord K rec) :
    (r = [] → ∃ p, self.Parse K (recordBytes recs ++ r)
      = some (.ok { parser := p, err := none, records := recs, rest := [] })) ∧
    (r ≠ [] → r.length < 19 → ∃ p, self.Parse K (recordBytes recs ++ r)
      = some (.ok { parser := p, err := some .ErrUnexpectedEOF, records := recs, rest := [] })) ∧
    (∀ hb part h, r = hb ++ part → hb.length = 19 → EventHeader.Decode {} hb = .ok (h, none) →
      part.length + 19 < h.EventSize → ∃ p, self.Parse K (recordBytes recs ++ r)
        = some (.ok { parser := p, err := some (.getEventBody h.EventSize part.length),
                      records := recs, rest := [] })) := by
  have hinv2 : NoChecksumStrip { self with tables := [] } := hinv
  obtain ⟨p, _, hfuel⟩ := ParseLoop_complete_records K recs { self with tables := [] } [] r
    hinv2 hrecs
  have hrun := hfuel 1
  rw [List.nil_append] at hrun
  have hone : BinlogParser.ParseLoop K 1 p r recs =
      match p.ParseIteration K r recs with
      | .stop out => some out
      | .next s r2 d2 => BinlogParser.ParseLoop K 0 s r2 d2 := ParseLoop_succ_eq K 0 p r recs
  refine ⟨?_, ?_, ?_⟩
  · intro hr
    subst hr
    refine ⟨p, Parse_of_ParseLoop K self _ (recs.length + 1) _ ?_⟩
    rw [hrun, hone]
    rfl
  · intro hne hlt
    refine ⟨p, Parse_of_ParseLoop K self _ (recs.length + 1) _ ?_⟩
    rw [hrun, hone]
    have h0 : ¬ r.length = 0 := fun h => hne (List.length_eq_zero.mp h)
    have h19 : r.length < EventHeaderSize := hlt
    unfold BinlogParser.ParseIteration
    rw [if_neg h0, if_pos h19]
  · intro hb part h hr hl hdec hsz
    subst hr
    refine ⟨p, Parse_of_ParseLoop K self _ (recs.length + 1) _ ?_⟩
    rw [hrun, hone]
    have h0 : ¬ (hb ++ part).length = 0 := by
      simp only [List.length_append]
      omega
    have h19 : ¬ (hb ++ part).length < EventHeaderSize := by
      simp only [List.length_append, EventHeaderSize]
      omega
    have ht : (hb ++ part).take EventHeaderSize = hb := by
      rw [EventHeaderSize, ← hl, List.take_left]
    have hdr : (hb ++ part).drop EventHeaderSize = part := by
      rw [EventHeaderSize, ← hl, List.drop_left]
    have hs1 : ¬ h.EventSize ≤ EventHeaderSize := by
      simp only [EventHeaderSize]
      omega
    have hs2 : part.length < h.EventSize - EventHeaderSize := by
      simp only [EventHeaderSize]
      omega
    unfold BinlogParser.ParseIteration
    rw [if_neg h0, if_neg h19]
    simp only [ht, hdr, parseHeader_of_Decode p hb h hdec, if_neg hs1, if_pos hs2]

/-- The scan theorem on a sample: the XID record followed by three stray bytes. -/
theorem BinlogParser.Parse_complete_records_sample :
    ∃ p, NewBinlogParser.Parse protocolCodes
        (recordBytes [(sampleXIDRecord.take 19, sampleXIDBody)] ++ [1, 2, 3])
      = some (.ok { parser := p, err := some .ErrUnexpectedEOF,
                    records := [(sampleXIDRecord.take 19, sampleXIDBody)], rest := [] }) :=
  (BinlogParser.Parse_complete_records protocolCodes NewBinlogParser
    [(sampleXIDRecord.take 19, sampleXIDBody)] [1, 2, 3]
    (by intro fd hf; cases hf)
    (by
      intro rec hrec
      simp only [List.mem_singleton] at hrec
      subst hrec
      exact ⟨rfl, by decide, _, rfl, rfl, by decide, by decide⟩)).2.1 (by decide) (by decide)

/-! ## The states `Parse` and `ParseFile` leave behind -/

/-- An iteration that goes on has called `parseEvent`, and carries on with the parser
that call leaves behind. -/
theorem ParseIteration_next_state (K : EventTypeCodes) (self s : BinlogParser) (r r2 : Bytes)
    (done d2 : List (Bytes × Bytes))
    (h : self.ParseIteration K r done = .next s r2 d2) :
    ∃ hd data e err, self.parseEvent K hd data = .ok (s, e, err) := by
  unfold BinlogParser.ParseIteration at h
  by_cases h0 : r.length = 0
  · rw [if_pos h0] at h
    cases h
  rw [if_neg h0] at h
  by_cases h19 : r.length < EventHeaderSize
  · rw [if_pos h19] at h
    cases h
  rw [if_neg h19] at h
  simp only at h
  split at h
  · cases h
  · cases h
  · cases h
  · rename_i hd hph
    split at h
    · cases h
    · split at h
      · cases h
      · split at h
        · cases h
        · split at h
          · cases h
          · rename_i p2 e2 err2 hpe
            simp only [ParseStep.next.injEq] at h
            obtain ⟨hs, _, _⟩ := h
            subst hs
            exact ⟨hd, _, e2, err2, hpe⟩

/-- An iteration that returns from `Parse` leaves the parser as it was. -/
theorem ParseIteration_stop_state (K : EventTypeCodes) (self : BinlogParser) (r : Bytes)
    (done : List (Bytes × Bytes)) (o : ParseOutcome)
    (h : self.ParseIteration K r done = .stop (.ok o)) : o.parser = self := by
  unfold BinlogParser.ParseIteration at h
  by_cases h0 : r.length = 0
  · rw [if_pos h0] at h
    cases h
    rfl
  rw [if_neg h0] at h
  by_cases h19 : r.length < EventHeaderSize
  · rw [if_pos h19] at h
    cases h
    rfl
  rw [if_neg h19] at h
  simp only at h
  split at h
  · cases h
  · cases h
    rfl
  · cases h
  · split at h
    · cases h
      rfl
    · split at h
      · cases h
        rfl
      · split at h
        · cases h
          rfl
        · split at h
          · cases h
          · cases h

theorem ParseLoop_reachable (K : EventTypeCodes) (fuel : Nat) :
    ∀ (self : BinlogParser) (r : Bytes) (done : List (Bytes × Bytes)) (o : ParseOutcome),
      Reachable K self → BinlogParser.ParseLoop K fuel self r done = some (.ok o) →
      Reachable K o.parser := by
  induction fuel with
  | zero =>
    intro self r done o _ h
    cases h
  | succ fuel ih =>
    intro self r done o hr h
    rw [ParseLoop_succ_eq] at h
    cases hstep : self.ParseIteration K r done with
    | stop out =>
      rw [hstep] at h
      simp only [Option.some.injEq] at h
      subst h
      rw [ParseIteration_stop_state K self r done o hstep]
      exact hr
    | next s r2 d2 =>
      rw [hstep] at h
      obtain ⟨hd, data, e, err, hpe⟩ := ParseIteration_next_state K self s r r2 done d2 hstep
      exact ih s r2 d2 o (Reachable.event self s hd data e err hr hpe) h

/-- The parser a returning call of `Parse` leaves behind, from a state a run reaches,
is again such a state: nil or zero-valued descriptor, empty table-map cache. -/
theorem Parse_reachable (K : EventTypeCodes) (self : BinlogParser) (r : Bytes)
    (o : ParseOutcome) (hr : Reachable K self) (h : self.Parse K r = some (.ok o)) :
    Reachable K o.parser :=
  ParseLoop_reachable K _ _ r [] o (Reachable.parse self hr) h

/-- The same for `ParseFile`. -/
theorem ParseFile_reachable (K : EventTypeCodes) (self : BinlogParser) (file : Option Bytes)
    (offset : Int) (o : ParseOutcome) (hr : Reachable K self)
    (h : self.ParseFile K file offset = some (.ok o)) : Reachable K o.parser := by
  cases file with
  | none =>
    cases h
    exact hr
  | some contents =>
    simp only [BinlogParser.ParseFile] at h
    by_cases h0 : contents.length = 0
    · rw [if_pos h0] at h
      cases h
      exact hr
    rw [if_neg h0] at h
    by_cases hm : makeCopy 4 contents ≠ BinLogFileHeader
    · rw [if_pos hm] at h
      cases h
      exact hr
    rw [if_neg hm] at h
    exact Parse_reachable K self _ o hr h

end mysql
